import Mathlib

/-!
Shallow embedding of the exact-cover shape-packing feasibility checker
(`src/6/index.ts`): shape canonicalization (rotations, flips, bounding-box
trimming), placement enumeration on a rectangular grid, the early-pruning
region feasibility checker `canFitRegion`, and the memoization caches.
The external DLX solver (the `dancing-links` npm package) is modelled from
the spec as generalized-exact-cover satisfiability.

Machine integers of the source are modelled as `Nat` (all quantities involved
are non-negative counts, dimensions and indices; no overflow is reachable for
them in JS doubles). A JS out-of-range catalog access (which would fault at
runtime) is modelled by `Option`: `none` means the engine faulted.
-/

namespace Day6

/-- Shape record (`type Pentomino` in the source): a flattened `height×width`
cell grid, `1` = filled, `0` = empty. -/
structure Pentomino where
  id : Nat
  height : Nat
  width : Nat
  matrix : List Nat
  deriving Repr, DecidableEq

/-- Region record: grid dimensions and the required count per shape id. -/
structure Region where
  width : Nat
  height : Nat
  pieces : List Nat
  deriving Repr, DecidableEq

/-- Convert a flat matrix to a 2D grid (`toGrid` inside `getVariants`):
row `y` is `matrix.slice(y*width, (y+1)*width)`. -/
def toGrid (matrix : List Nat) (width height : Nat) : List (List Nat) :=
  (List.range height).map (fun y => (matrix.drop (y * width)).take width)

/-- Rotate a grid 90 degrees clockwise (`rotate` inside `getVariants`):
result row `x` is `[grid[h-1][x], ..., grid[0][x]]`. -/
def rotate (grid : List (List Nat)) : List (List Nat) :=
  (List.range ((grid.headD []).length)).map (fun x =>
    ((List.range grid.length).reverse).map (fun y => (grid.getD y []).getD x 0))

/-- Flip a grid horizontally (`flip` inside `getVariants`). -/
def flip (grid : List (List Nat)) : List (List Nat) :=
  grid.map (fun row => row.reverse)

/-- Column indices holding a `1`, over all rows, in traversal order (the
positions the `minCol`/`maxCol` scan of `normalize` visits). -/
def filledColumns (rows : List (List Nat)) : List Nat :=
  rows.flatMap (fun row => (List.range row.length).filter (fun c => row.getD c 0 == 1))

/-- Leftmost filled column over the given rows (`minCol` in `normalize`; the
JS fold from `Infinity` equals folding `min` from the first filled column). -/
def minColOf (rows : List (List Nat)) : Nat :=
  (filledColumns rows).foldl min ((filledColumns rows).headD 0)

/-- Rightmost filled column over the given rows (`maxCol` in `normalize`). -/
def maxColOf (rows : List (List Nat)) : Nat :=
  (filledColumns rows).foldl max ((filledColumns rows).headD 0)

/-- Column-bounding slice of `normalize`: each row restricted to
`[minCol, maxCol]` via `row.slice(minCol, maxCol + 1)`. -/
def sliceRows (rows : List (List Nat)) : List (List Nat) :=
  rows.map (fun row => (row.drop (minColOf rows)).take (maxColOf rows + 1 - minColOf rows))

/-- Normalize a grid (`normalize` inside `getVariants`): drop rows containing
no `1`, then slice every remaining row to the column range `[minCol, maxCol]`
spanned by the filled cells. A grid with no filled cells becomes `[[]]`. -/
def normalize (grid : List (List Nat)) : List (List Nat) :=
  let filtered := grid.filter (fun row => row.any (fun c => c == 1))
  if filtered.isEmpty then [[]] else sliceRows filtered

/-- Decimal digit character (`'0'` .. `'9'`). -/
def digitChar (d : Nat) : Char :=
  Char.ofNat (48 + d)

/-- Fuel-driven decimal rendering of a natural number (structural recursion so
that concrete keys evaluate by kernel reduction). -/
def natStrAux : Nat → Nat → List Char
  | 0, _ => []
  | fuel + 1, n =>
    if n < 10 then [digitChar n] else natStrAux fuel (n / 10) ++ [digitChar (n % 10)]

/-- Decimal rendering of a natural number, as JS string interpolation does. -/
def natStr (n : Nat) : List Char :=
  natStrAux (n + 1) n

/-- Decimal rendering packaged as a `String`. -/
def numStr (n : Nat) : String :=
  ⟨natStr n⟩

/-- Dedup key of a grid (`gridToKey` inside `getVariants`):
`grid.map(row => row.join("")).join("|")`. -/
def gridToKey (grid : List (List Nat)) : String :=
  String.intercalate "|" (grid.map (fun row => String.join (row.map (fun n => numStr n))))

/-- Conditional push of the `getVariants` loop: insert a normalized grid in
the variant list unless its key was already seen. -/
def pushVariant (seen : List String) (variants : List (List (List Nat)))
    (g : List (List Nat)) : List String × List (List (List Nat)) :=
  let key := gridToKey g
  if seen.contains key then (seen, variants) else (key :: seen, variants ++ [g])

/-- One iteration of the `getVariants` loop: push the normalized current grid
and its normalized horizontal flip (each unless its key was seen), then rotate
the working grid clockwise for the next iteration. State is
`((seen keys, variants so far), working grid)`. -/
def variantStep (st : (List String × List (List (List Nat))) × List (List Nat)) :
    (List String × List (List (List Nat))) × List (List Nat) :=
  let p1 := pushVariant st.1.1 st.1.2 (normalize st.2)
  let p2 := pushVariant p1.1 p1.2 (normalize (flip st.2))
  (p2, rotate st.2)

/-- All unique orientations of a shape (`getVariants`): 4 rotations × optional
horizontal flip, each normalized and deduplicated by key, in discovery order. -/
def getVariants (shape : Pentomino) : List (List (List Nat)) :=
  (((List.range 4).foldl (fun st _ => variantStep st)
      (([], []), toGrid shape.matrix shape.width shape.height)).1).2

/-- Cell indices occupied by a variant anchored at `(py, px)` in a grid of
width `gw` (the innermost double loop of `getShapePlacements`): row-major
index `(py+y)*gw + (px+x)` for every filled `(y, x)` of the variant. -/
def variantCells (variant : List (List Nat)) (py px gw : Nat) : List Nat :=
  (List.range variant.length).flatMap (fun y =>
    (List.range ((variant.headD []).length)).filterMap (fun x =>
      if (variant.getD y []).getD x 0 == 1 then some ((py + y) * gw + (px + x)) else none))

/-- Placement enumeration for a variant list (`getShapePlacements` body): for
each variant of bounding box `vh×vw`, slide the anchor over every position
with `py ≤ gh−vh` and `px ≤ gw−vw` (no positions when the variant does not
fit) and emit the occupied cell indices. -/
def placementsOfVariants (variants : List (List (List Nat))) (gw gh : Nat) :
    List (List Nat) :=
  variants.flatMap (fun variant =>
    let vh := variant.length
    let vw := (variant.headD []).length
    (if vh ≤ gh then List.range (gh - vh + 1) else []).flatMap (fun py =>
      (if vw ≤ gw then List.range (gw - vw + 1) else []).map (fun px =>
        variantCells variant py px gw)))

/-- All placements of a shape in a `gw×gh` grid (`getShapePlacements`, with the
memoization stripped; the cached version is `getShapePlacementsC` below). -/
def getShapePlacements (shape : Pentomino) (gw gh : Nat) : List (List Nat) :=
  placementsOfVariants (getVariants shape) gw gh

/-- Number of filled cells of a shape (`getShapeCellCount`, memoization
stripped): `shape.matrix.filter(c => c === 1).length`. -/
def getShapeCellCount (shape : Pentomino) : Nat :=
  (shape.matrix.filter (fun c => c == 1)).length

/-- Modelled from the spec: the solver behind `dlx.createSolver`,
`addSparseConstraints` and `createGenerator` is the external `dancing-links`
npm package, whose source is not part of this repository. Per spec §4.3 and
the glossary, it decides satisfiability of a generalized exact cover instance:
some subset of the rows must cover every primary column exactly once and every
secondary column at most once. Each row is `(primary columns, secondary
columns)`; the checker emits rows of the form `([pieceIdx], cells)`. -/
def dlxSolve (numPrimary numSecondary : Nat) (rows : List (List Nat × List Nat)) : Bool :=
  rows.sublists.any (fun sel =>
    ((List.range numPrimary).all (fun p =>
        sel.countP (fun r => r.1.contains p) == 1)) &&
    ((List.range numSecondary).all (fun c =>
        decide (sel.countP (fun r => r.2.contains c) ≤ 1))))

/-- Piece-instance list of a region (the `pieceInstances` loop of
`canFitRegion`): shape index `i` repeated `pieces[i]` times, in index order. -/
def buildPieceInstances (pieces : List Nat) : List Nat :=
  (List.range pieces.length).flatMap (fun i => List.replicate (pieces.getD i 0) i)

/-- Early-pruning sum of `canFitRegion` over the given shape indices:
`Σ pieces[i] * cellCount(shapes[i])` over indices with `pieces[i] > 0`.
`none` models the JS fault on an out-of-range catalog access. -/
def totalCellsAux (pieces : List Nat) (shapes : List Pentomino) : List Nat → Option Nat
  | [] => some 0
  | shapeIdx :: rest =>
    if pieces.getD shapeIdx 0 > 0 then
      match shapes[shapeIdx]? with
      | none => none
      | some s =>
        (totalCellsAux pieces shapes rest).map
          (fun t => pieces.getD shapeIdx 0 * getShapeCellCount s + t)
    else totalCellsAux pieces shapes rest

/-- Total cells needed by a region (`totalCellsNeeded` in `canFitRegion`). -/
def totalCellsNeeded (pieces : List Nat) (shapes : List Pentomino) : Option Nat :=
  totalCellsAux pieces shapes (List.range pieces.length)

/-- Constraint rows of `canFitRegion` for the given piece indices: for each
piece instance, one row per placement of its shape, pairing the instance's
primary column with the placement's cell columns. `none` models the JS fault
on an out-of-range catalog access. -/
def constraintRows (pieceInstances : List Nat) (shapes : List Pentomino) (gw gh : Nat) :
    List Nat → Option (List (List Nat × List Nat))
  | [] => some []
  | pieceIdx :: rest =>
    match shapes[pieceInstances.getD pieceIdx 0]? with
    | none => none
    | some s =>
      match constraintRows pieceInstances shapes gw gh rest with
      | none => none
      | some rows =>
        some (((getShapePlacements s gw gh).map (fun cells => ([pieceIdx], cells))) ++ rows)

/-- Full constraint list of `canFitRegion` (the batched `constraints` array). -/
def buildConstraints (pieceInstances : List Nat) (shapes : List Pentomino) (gw gh : Nat) :
    Option (List (List Nat × List Nat)) :=
  constraintRows pieceInstances shapes gw gh (List.range pieceInstances.length)

/-- Region feasibility checker (`canFitRegion`): early capacity pruning, then
trivial success on zero instances, then the exact-cover solve. `none` models
the JS fault on an out-of-range catalog access. -/
def canFitRegion (region : Region) (shapes : List Pentomino) : Option Bool :=
  let numCells := region.width * region.height
  match totalCellsNeeded region.pieces shapes with
  | none => none
  | some totalCells =>
    if totalCells > numCells then some false
    else
      let pieceInstances := buildPieceInstances region.pieces
      if pieceInstances.length = 0 then some true
      else
        match buildConstraints pieceInstances shapes region.width region.height with
        | none => none
        | some rows => some (dlxSolve pieceInstances.length numCells rows)

/-- Instrumented constraint building: additionally counts how many times
`getShapePlacements` is invoked (once per piece instance processed). -/
def constraintRowsInstr (pieceInstances : List Nat) (shapes : List Pentomino) (gw gh : Nat) :
    List Nat → Option (List (List Nat × List Nat)) × Nat
  | [] => (some [], 0)
  | pieceIdx :: rest =>
    match shapes[pieceInstances.getD pieceIdx 0]? with
    | none => (none, 1)
    | some s =>
      match constraintRowsInstr pieceInstances shapes gw gh rest with
      | (none, n) => (none, n + 1)
      | (some rows, n) =>
        (some (((getShapePlacements s gw gh).map (fun cells => ([pieceIdx], cells))) ++ rows),
          n + 1)

/-- Instrumented `canFitRegion`: same result, paired with the number of
`getShapePlacements` invocations performed during the call. -/
def canFitRegionInstr (region : Region) (shapes : List Pentomino) : Option Bool × Nat :=
  let numCells := region.width * region.height
  match totalCellsNeeded region.pieces shapes with
  | none => (none, 0)
  | some totalCells =>
    if totalCells > numCells then (some false, 0)
    else
      let pieceInstances := buildPieceInstances region.pieces
      if pieceInstances.length = 0 then (some true, 0)
      else
        match constraintRowsInstr pieceInstances shapes region.width region.height
            (List.range pieceInstances.length) with
        | (none, n) => (none, n)
        | (some rows, n) => (some (dlxSolve pieceInstances.length numCells rows), n)

/-- Memoization caches of the source, made explicit: `variantCache`
(shape id → variants), `placementCache` (string key → placements) and
`shapeCellCounts` (shape id → filled-cell count), modelled as association
lists with most-recent-first insertion (JS `Map.set`/`get` semantics for the
keys the checker uses). -/
structure Caches where
  variantCache : List (Nat × List (List (List Nat)))
  placementCache : List (String × List (List Nat))
  cellCountCache : List (Nat × Nat)

/-- Placement-cache key: `` `${shape.id}_${gridWidth}_${gridHeight}` ``. -/
def placementKey (id gw gh : Nat) : String :=
  ⟨natStr id ++ '_' :: (natStr gw ++ '_' :: natStr gh)⟩

/-- Cached variant lookup (`getCachedVariants`): compute and store on miss. -/
def getCachedVariants (c : Caches) (shape : Pentomino) :
    List (List (List Nat)) × Caches :=
  match c.variantCache.lookup shape.id with
  | some v => (v, c)
  | none =>
    let v := getVariants shape
    (v, Caches.mk ((shape.id, v) :: c.variantCache) c.placementCache c.cellCountCache)

/-- Cached placement enumeration (the memoized `getShapePlacements` of the
source): keyed by `placementKey`, computing via `getCachedVariants` on miss. -/
def getShapePlacementsC (c : Caches) (shape : Pentomino) (gw gh : Nat) :
    List (List Nat) × Caches :=
  let key := placementKey shape.id gw gh
  match c.placementCache.lookup key with
  | some v => (v, c)
  | none =>
    let vc := getCachedVariants c shape
    let placements := placementsOfVariants vc.1 gw gh
    (placements,
      Caches.mk vc.2.variantCache ((key, placements) :: vc.2.placementCache) vc.2.cellCountCache)

/-- Cached cell count (the memoized `getShapeCellCount` of the source). -/
def getShapeCellCountC (c : Caches) (shape : Pentomino) : Nat × Caches :=
  match c.cellCountCache.lookup shape.id with
  | some n => (n, c)
  | none =>
    let n := getShapeCellCount shape
    (n, Caches.mk c.variantCache c.placementCache ((shape.id, n) :: c.cellCountCache))

/-- Cache-threaded early-pruning sum (the source's pruning loop, which calls
the memoized cell-count function). -/
def totalCellsAuxC (pieces : List Nat) (shapes : List Pentomino) :
    List Nat → Caches → Option Nat × Caches
  | [], c => (some 0, c)
  | shapeIdx :: rest, c =>
    if pieces.getD shapeIdx 0 > 0 then
      match shapes[shapeIdx]? with
      | none => (none, c)
      | some s =>
        let nc := getShapeCellCountC c s
        let tc := totalCellsAuxC pieces shapes rest nc.2
        (tc.1.map (fun t => pieces.getD shapeIdx 0 * nc.1 + t), tc.2)
    else totalCellsAuxC pieces shapes rest c

/-- Cache-threaded constraint building (the source's constraints loop, which
calls the memoized placement enumeration). -/
def constraintRowsC (pieceInstances : List Nat) (shapes : List Pentomino) (gw gh : Nat) :
    List Nat → Caches → Option (List (List Nat × List Nat)) × Caches
  | [], c => (some [], c)
  | pieceIdx :: rest, c =>
    match shapes[pieceInstances.getD pieceIdx 0]? with
    | none => (none, c)
    | some s =>
      let pc := getShapePlacementsC c s gw gh
      let rc := constraintRowsC pieceInstances shapes gw gh rest pc.2
      (rc.1.map (fun rows => ((pc.1.map (fun cells => ([pieceIdx], cells))) ++ rows)), rc.2)

/-- Cache-threaded region feasibility checker: `canFitRegion` exactly as in the
source, with the global caches passed and returned explicitly. -/
def canFitRegionC (region : Region) (shapes : List Pentomino) (c : Caches) :
    Option Bool × Caches :=
  let numCells := region.width * region.height
  match totalCellsAuxC region.pieces shapes (List.range region.pieces.length) c with
  | (none, c1) => (none, c1)
  | (some totalCells, c1) =>
    if totalCells > numCells then (some false, c1)
    else
      let pieceInstances := buildPieceInstances region.pieces
      if pieceInstances.length = 0 then (some true, c1)
      else
        match constraintRowsC pieceInstances shapes region.width region.height
            (List.range pieceInstances.length) c1 with
        | (none, c2) => (none, c2)
        | (some rows, c2) => (some (dlxSolve pieceInstances.length numCells rows), c2)

/-- Number of filled cells of a grid: the measure the claims compare variants
and placements against. -/
def fillCount (g : List (List Nat)) : Nat :=
  g.flatten.count 1

/-- Rectangularity: every row of the grid has length `w`. -/
def Rect (g : List (List Nat)) (w : Nat) : Prop :=
  ∀ row ∈ g, row.length = w

/-- Well-formed variant shape: filled-cell count `n`, at least one row, and
rows all as long as the first one. -/
def GoodVariant (n : Nat) (v : List (List Nat)) : Prop :=
  fillCount v = n ∧ v ≠ [] ∧ Rect v ((v.headD []).length)

/-- Invariant of the `getVariants` loop used for counting and rectangularity:
every collected variant is good for `n`, and the working grid is a nonempty
rectangle with positive width whose filled-cell count is `n`. -/
def StepInv (n : Nat) (st : (List String × List (List (List Nat))) × List (List Nat)) :
    Prop :=
  (∀ v ∈ st.1.2, GoodVariant n v) ∧
  0 < st.2.length ∧ 0 < (st.2.headD []).length ∧
  Rect st.2 ((st.2.headD []).length) ∧ fillCount st.2 = n

/-- Invariant of the `getVariants` loop used for deduplication: every
collected variant has its key among the seen keys, and the collected variants
are pairwise distinct. -/
def KeysInv (p : List String × List (List (List Nat))) : Prop :=
  (∀ v ∈ p.2, gridToKey v ∈ p.1) ∧ p.2.Pairwise (fun a b => a ≠ b)

/-- Cache validity: every cached entry agrees with the pure recomputation for
every catalog shape matching its key. Fresh caches are trivially valid, and
every cache produced while checking regions against the catalog stays valid. -/
def validCaches (shapes : List Pentomino) (c : Caches) : Prop :=
  (∀ p ∈ c.variantCache, ∀ s ∈ shapes, s.id = p.1 → p.2 = getVariants s) ∧
  (∀ p ∈ c.placementCache, ∀ s ∈ shapes, ∀ gw gh,
    p.1 = placementKey s.id gw gh → p.2 = getShapePlacements s gw gh) ∧
  (∀ p ∈ c.cellCountCache, ∀ s ∈ shapes, s.id = p.1 → p.2 = getShapeCellCount s)

/-- All 0/1 lists of length `n`, used to enumerate well-formed 3×3 matrices. -/
def allBin : Nat → List (List Nat)
  | 0 => [[]]
  | n + 1 => (allBin n).flatMap (fun l => [0 :: l, 1 :: l])

/-- The nine 3×3 matrices holding exactly one filled cell. -/
def singleCellMatrices : List (List Nat) :=
  [[1, 0, 0, 0, 0, 0, 0, 0, 0], [0, 1, 0, 0, 0, 0, 0, 0, 0], [0, 0, 1, 0, 0, 0, 0, 0, 0],
   [0, 0, 0, 1, 0, 0, 0, 0, 0], [0, 0, 0, 0, 1, 0, 0, 0, 0], [0, 0, 0, 0, 0, 1, 0, 0, 0],
   [0, 0, 0, 0, 0, 0, 1, 0, 0], [0, 0, 0, 0, 0, 0, 0, 1, 0], [0, 0, 0, 0, 0, 0, 0, 0, 1]]

/-- Catalog sanity used by the cache claims: a shape id determines the cell
grid (no two catalog entries share an id with different grids). -/
def idsConsistent (shapes : List Pentomino) : Prop :=
  ∀ s1 ∈ shapes, ∀ s2 ∈ shapes, s1.id = s2.id →
    s1.matrix = s2.matrix ∧ s1.width = s2.width ∧ s1.height = s2.height

/-! Helper lemmas: counting ones in rows and grids. -/

lemma getD_eq_default_of_le {α : Type} {l : List α} {n : Nat} (h : l.length ≤ n) (d : α) :
    l.getD n d = d := by
  rw [List.getD_eq_getElem?_getD, List.getElem?_eq_none h]
  rfl

lemma one_mem_take {l : List Nat} {n : Nat} (h : (1 : Nat) ∈ l.take n) :
    ∃ i, i < n ∧ l.getD i 0 = 1 := by
  obtain ⟨j, hj, hval⟩ := List.getElem_of_mem h
  have hjn : j < n := lt_of_lt_of_le hj (by rw [List.length_take]; exact Nat.min_le_left _ _)
  have hjl : j < l.length := lt_of_lt_of_le hj (by rw [List.length_take]; exact Nat.min_le_right _ _)
  refine ⟨j, hjn, ?_⟩
  rw [List.getElem_take l] at hval
  rw [List.getD_eq_getElem l 0 hjl]
  exact hval

lemma one_mem_drop {l : List Nat} {n : Nat} (h : (1 : Nat) ∈ l.drop n) :
    ∃ i, n ≤ i ∧ l.getD i 0 = 1 := by
  obtain ⟨j, hj, hval⟩ := List.getElem_of_mem h
  have hlen : n + j < l.length := by
    rw [List.length_drop] at hj
    omega
  refine ⟨n + j, Nat.le_add_right _ _, ?_⟩
  rw [List.getD_eq_getElem l 0 hlen]
  rw [List.getElem_drop] at hval
  exact hval

lemma count_one_eq_zero {l : List Nat} (h : ∀ i, l.getD i 0 ≠ 1) : l.count 1 = 0 := by
  rw [List.count_eq_zero]
  intro hmem
  obtain ⟨j, hj, hval⟩ := List.getElem_of_mem hmem
  exact h j (by rw [List.getD_eq_getElem l 0 hj]; exact hval)

lemma count_one_slice (row : List Nat) (a b : Nat) (hab : a ≤ b + 1)
    (hlow : ∀ i, row.getD i 0 = 1 → a ≤ i ∧ i ≤ b) :
    ((row.drop a).take (b + 1 - a)).count 1 = row.count 1 := by
  have hsplit1 : row.count 1 = (row.take a).count 1 + (row.drop a).count 1 := by
    conv_lhs => rw [← List.take_append_drop a row]
    rw [List.count_append]
  have htk : (row.take a).count 1 = 0 := by
    rw [List.count_eq_zero]
    intro hmem
    obtain ⟨i, hia, hi⟩ := one_mem_take hmem
    exact absurd (hlow i hi).1 (by omega)
  have hsplit2 : (row.drop a).count 1 =
      ((row.drop a).take (b + 1 - a)).count 1 + ((row.drop a).drop (b + 1 - a)).count 1 := by
    conv_lhs => rw [← List.take_append_drop (b + 1 - a) (row.drop a)]
    rw [List.count_append]
  have hdd : (row.drop a).drop (b + 1 - a) = row.drop (b + 1) := by
    rw [List.drop_drop]
    congr 1
    omega
  have hdr : (row.drop (b + 1)).count 1 = 0 := by
    rw [List.count_eq_zero]
    intro hmem
    obtain ⟨i, hia, hi⟩ := one_mem_drop hmem
    exact absurd (hlow i hi).2 (by omega)
  rw [hsplit1, htk, hsplit2, hdd, hdr]
  omega

lemma sum_map_count_filter (p : List Nat → Bool) (g : List (List Nat))
    (h : ∀ row ∈ g, p row = false → row.count 1 = 0) :
    ((g.filter p).map (fun r => r.count 1)).sum = (g.map (fun r => r.count 1)).sum := by
  induction g with
  | nil => rfl
  | cons row rest ih =>
    have ih' := ih (fun r hr hp => h r (List.mem_cons_of_mem _ hr) hp)
    rw [List.filter_cons]
    by_cases hp : p row = true
    · rw [if_pos hp]
      simp only [List.map_cons, List.sum_cons, ih']
    · rw [if_neg hp]
      have h0 : row.count 1 = 0 :=
        h row (List.mem_cons_self _ _) (Bool.not_eq_true _ ▸ hp)
      simp only [List.map_cons, List.sum_cons, ih', h0, Nat.zero_add]

lemma fillCount_eq_sum (g : List (List Nat)) :
    fillCount g = (g.map (fun r => r.count 1)).sum := by
  rw [fillCount, List.count_flatten]

/-! Helper lemmas: the foldl min/max bounds used by `normalize`. -/

lemma foldl_min_bounds (l : List Nat) (a : Nat) :
    l.foldl min a ≤ a ∧ ∀ x ∈ l, l.foldl min a ≤ x := by
  induction l generalizing a with
  | nil => exact ⟨le_refl a, by intro x hx; cases hx⟩
  | cons b t ih =>
    obtain ⟨h1, h2⟩ := ih (min a b)
    refine ⟨le_trans h1 (min_le_left a b), ?_⟩
    intro x hx
    rcases List.mem_cons.mp hx with rfl | hx
    · exact le_trans h1 (min_le_right a x)
    · exact h2 x hx

lemma foldl_max_bounds (l : List Nat) (a : Nat) :
    a ≤ l.foldl max a ∧ ∀ x ∈ l, x ≤ l.foldl max a := by
  induction l generalizing a with
  | nil => exact ⟨le_refl a, by intro x hx; cases hx⟩
  | cons b t ih =>
    obtain ⟨h1, h2⟩ := ih (max a b)
    refine ⟨le_trans (le_max_left a b) h1, ?_⟩
    intro x hx
    rcases List.mem_cons.mp hx with rfl | hx
    · exact le_trans (le_max_right a x) h1
    · exact h2 x hx

lemma mem_filledColumns {rows : List (List Nat)} {c : Nat} :
    c ∈ filledColumns rows ↔ ∃ row ∈ rows, c < row.length ∧ row.getD c 0 = 1 := by
  simp only [filledColumns, List.mem_flatMap, List.mem_filter, List.mem_range, beq_iff_eq]

lemma minColOf_le {rows : List (List Nat)} {c : Nat} (h : c ∈ filledColumns rows) :
    minColOf rows ≤ c :=
  (foldl_min_bounds (filledColumns rows) ((filledColumns rows).headD 0)).2 c h

lemma le_maxColOf {rows : List (List Nat)} {c : Nat} (h : c ∈ filledColumns rows) :
    c ≤ maxColOf rows :=
  (foldl_max_bounds (filledColumns rows) ((filledColumns rows).headD 0)).2 c h

lemma minColOf_le_maxColOf (rows : List (List Nat)) : minColOf rows ≤ maxColOf rows :=
  le_trans (foldl_min_bounds _ _).1 (foldl_max_bounds _ _).1

lemma filled_pos_mem {rows : List (List Nat)} {row : List Nat} {i : Nat}
    (hrow : row ∈ rows) (hi : row.getD i 0 = 1) : i ∈ filledColumns rows := by
  have hlt : i < row.length := by
    by_contra hge
    rw [getD_eq_default_of_le (by omega) 0] at hi
    exact absurd hi (by omega)
  exact mem_filledColumns.mpr ⟨row, hrow, hlt, hi⟩

lemma count_one_sliceRows_row {rows : List (List Nat)} {row : List Nat} (hrow : row ∈ rows) :
    ((row.drop (minColOf rows)).take (maxColOf rows + 1 - minColOf rows)).count 1 =
      row.count 1 := by
  apply count_one_slice row (minColOf rows) (maxColOf rows)
    (by have := minColOf_le_maxColOf rows; omega)
  intro i hi
  have hmem := filled_pos_mem hrow hi
  exact ⟨minColOf_le hmem, le_maxColOf hmem⟩

lemma fillCount_sliceRows (rows : List (List Nat)) :
    fillCount (sliceRows rows) = fillCount rows := by
  rw [fillCount_eq_sum, fillCount_eq_sum, sliceRows, List.map_map]
  congr 1
  apply List.map_congr_left
  intro row hrow
  exact count_one_sliceRows_row hrow

lemma fillCount_normalize (g : List (List Nat)) : fillCount (normalize g) = fillCount g := by
  rw [normalize]
  by_cases hemp : (g.filter (fun row => row.any (fun c => c == 1))).isEmpty = true
  · rw [if_pos hemp]
    have hall : ∀ row ∈ g, row.count 1 = 0 := by
      intro row hrow
      rw [List.isEmpty_iff] at hemp
      rw [List.count_eq_zero]
      intro hmem
      have hany : row.any (fun c => c == 1) = true :=
        List.any_eq_true.mpr ⟨1, hmem, by simp⟩
      have hin : row ∈ g.filter (fun row => row.any (fun c => c == 1)) :=
        List.mem_filter.mpr ⟨hrow, hany⟩
      rw [hemp] at hin
      cases hin
    have h0 : fillCount g = 0 := by
      rw [fillCount_eq_sum]
      apply List.sum_eq_zero
      intro x hx
      obtain ⟨row, hrow, rfl⟩ := List.mem_map.mp hx
      exact hall row hrow
    rw [h0]
    rfl
  · rw [if_neg hemp, fillCount_sliceRows]
    rw [fillCount_eq_sum, fillCount_eq_sum]
    apply sum_map_count_filter
    intro row _ hfalse
    rw [List.count_eq_zero]
    intro hmem
    have : row.any (fun c => c == 1) = true := List.any_eq_true.mpr ⟨1, hmem, by simp⟩
    rw [this] at hfalse
    cases hfalse

/-! Helper lemmas: grid structure of `toGrid`, `rotate`, `flip`, `normalize`. -/

lemma headD_length_of_rect {g : List (List Nat)} {w : Nat} (hg : Rect g w) (hne : g ≠ []) :
    (g.headD []).length = w := by
  cases g with
  | nil => exact absurd rfl hne
  | cons r t => exact hg r (List.mem_cons_self r t)

lemma toGrid_succ (m : List Nat) (w h : Nat) :
    toGrid m w (h + 1) = m.take w :: toGrid (m.drop w) w h := by
  rw [toGrid, toGrid, List.range_succ_eq_map, List.map_cons]
  congr 1
  · simp
  · rw [List.map_map]
    apply List.map_congr_left
    intro y _
    simp only [Function.comp_apply]
    rw [List.drop_drop]
    have hyw : Nat.succ y * w = w + y * w := by
      rw [Nat.succ_mul, Nat.add_comm]
    rw [hyw]

lemma flatten_toGrid (w : Nat) : ∀ (h : Nat) (m : List Nat),
    m.length = w * h → (toGrid m w h).flatten = m := by
  intro h
  induction h with
  | zero =>
    intro m hm
    have : m = [] := List.length_eq_zero.mp (by omega)
    subst this
    rfl
  | succ n ih =>
    intro m hm
    rw [toGrid_succ, List.flatten_cons, ih (m.drop w) (by rw [List.length_drop, hm, Nat.mul_succ]; omega)]
    exact List.take_append_drop w m

lemma length_toGrid (m : List Nat) (w h : Nat) : (toGrid m w h).length = h := by
  simp [toGrid]

lemma rect_toGrid {m : List Nat} {w h : Nat} (hm : m.length = w * h) :
    Rect (toGrid m w h) w := by
  intro row hrow
  rw [toGrid] at hrow
  obtain ⟨y, hy, rfl⟩ := List.mem_map.mp hrow
  rw [List.mem_range] at hy
  have h1 : Nat.succ y * w ≤ h * w := Nat.mul_le_mul_right w hy
  rw [Nat.succ_mul] at h1
  have h2 : w ≤ w * h - y * w := by
    apply Nat.le_sub_of_add_le
    rw [Nat.mul_comm w h]
    linarith
  rw [List.length_take, List.length_drop, hm]
  exact Nat.min_eq_left h2

lemma fillCount_toGrid {m : List Nat} {w h : Nat} (hm : m.length = w * h) :
    fillCount (toGrid m w h) = m.count 1 := by
  rw [fillCount, flatten_toGrid w h m hm]

lemma fillCount_flip (g : List (List Nat)) : fillCount (flip g) = fillCount g := by
  rw [fillCount_eq_sum, fillCount_eq_sum, flip, List.map_map]
  congr 1
  apply List.map_congr_left
  intro row _
  simp only [Function.comp_apply]
  exact List.count_reverse 1 row

lemma rect_flip {g : List (List Nat)} {w : Nat} (hg : Rect g w) : Rect (flip g) w := by
  intro row hrow
  rw [flip] at hrow
  obtain ⟨r, hr, rfl⟩ := List.mem_map.mp hrow
  rw [List.length_reverse]
  exact hg r hr

lemma length_flip (g : List (List Nat)) : (flip g).length = g.length := by
  simp [flip]

lemma length_rotate (g : List (List Nat)) : (rotate g).length = (g.headD []).length := by
  simp [rotate]

lemma rect_rotate (g : List (List Nat)) : Rect (rotate g) g.length := by
  intro row hrow
  rw [rotate] at hrow
  obtain ⟨x, hx, rfl⟩ := List.mem_map.mp hrow
  simp

/-! Helper lemmas: counting via positional sums, for the rotation argument. -/

lemma sum_map_getD {α : Type} (l : List α) (f : α → Nat) (d : α) :
    (l.map f).sum = ∑ i ∈ Finset.range l.length, f (l.getD i d) := by
  induction l with
  | nil => simp
  | cons a t ih =>
    rw [List.map_cons, List.sum_cons, List.length_cons, Finset.sum_range_succ']
    simp only [List.getD_cons_succ, List.getD_cons_zero]
    rw [← ih]
    exact Nat.add_comm _ _

lemma count_one_eq_sum (row : List Nat) :
    row.count 1 = ∑ i ∈ Finset.range row.length, if row.getD i 0 = 1 then 1 else 0 := by
  induction row with
  | nil => simp
  | cons a t ih =>
    rw [List.count_cons, List.length_cons, Finset.sum_range_succ']
    simp only [List.getD_cons_succ, List.getD_cons_zero]
    rw [← ih]
    by_cases ha : a = 1 <;> simp [ha]

lemma countP_range_eq_sum (p : Nat → Bool) (n : Nat) :
    (List.range n).countP p = ∑ i ∈ Finset.range n, if p i = true then 1 else 0 := by
  induction n with
  | zero => simp
  | succ n ih =>
    rw [List.range_succ, List.countP_append, Finset.sum_range_succ, ih]
    simp [List.countP_cons]

lemma getD_map_range {α : Type} {f : Nat → α} {n x : Nat} (hx : x < n) (d : α) :
    ((List.range n).map f).getD x d = f x := by
  have hxlen : x < ((List.range n).map f).length := by
    rw [List.length_map, List.length_range]
    exact hx
  rw [List.getD_eq_getElem _ _ hxlen, List.getElem_map]
  simp

lemma fillCount_rotate {g : List (List Nat)} {w : Nat} (hg : Rect g w) (hne : g ≠ []) :
    fillCount (rotate g) = fillCount g := by
  have hw : (g.headD []).length = w := headD_length_of_rect hg hne
  have hrowlen : ∀ y, y < g.length → (g.getD y []).length = w := by
    intro y hy
    apply hg
    rw [List.getD_eq_getElem _ _ hy]
    exact List.getElem_mem hy
  rw [fillCount_eq_sum, fillCount_eq_sum,
    sum_map_getD (rotate g) _ ([] : List Nat), sum_map_getD g _ ([] : List Nat),
    length_rotate, hw]
  have hL : ∀ x ∈ Finset.range w, ((rotate g).getD x []).count 1 =
      ∑ y ∈ Finset.range g.length, if (g.getD y []).getD x 0 = 1 then 1 else 0 := by
    intro x hx
    rw [Finset.mem_range] at hx
    have hgx : (rotate g).getD x [] =
        ((List.range g.length).reverse).map (fun y => (g.getD y []).getD x 0) := by
      rw [rotate]
      exact getD_map_range (by rw [hw]; exact hx) []
    rw [hgx, List.count_eq_countP, List.countP_map, List.countP_reverse, countP_range_eq_sum]
    apply Finset.sum_congr rfl
    intro y _
    by_cases hv : (g.getD y []).getD x 0 = 1 <;> simp [Function.comp, hv]
  have hR : ∀ y ∈ Finset.range g.length, (g.getD y []).count 1 =
      ∑ x ∈ Finset.range w, if (g.getD y []).getD x 0 = 1 then 1 else 0 := by
    intro y hy
    rw [Finset.mem_range] at hy
    rw [count_one_eq_sum, hrowlen y hy]
  rw [Finset.sum_congr rfl hL, Finset.sum_congr rfl hR]
  exact Finset.sum_comm

/-! Helper lemmas: shape of `normalize` output. -/

lemma normalize_ne_nil (g : List (List Nat)) : normalize g ≠ [] := by
  rw [normalize]
  by_cases hemp : (g.filter (fun row => row.any (fun c => c == 1))).isEmpty = true
  · rw [if_pos hemp]
    simp
  · rw [if_neg hemp]
    rw [sliceRows]
    intro hcon
    apply hemp
    rw [List.isEmpty_iff]
    exact List.map_eq_nil_iff.mp hcon

lemma rect_sliceRows {rows : List (List Nat)} {w : Nat} (hr : Rect rows w) :
    Rect (sliceRows rows) (min (maxColOf rows + 1 - minColOf rows) (w - minColOf rows)) := by
  intro row hrow
  rw [sliceRows] at hrow
  obtain ⟨r, hrr, rfl⟩ := List.mem_map.mp hrow
  rw [List.length_take, List.length_drop, hr r hrr]

lemma rect_normalize {g : List (List Nat)} {w : Nat} (hg : Rect g w) :
    Rect (normalize g) (((normalize g).headD []).length) := by
  rw [normalize]
  by_cases hemp : (g.filter (fun row => row.any (fun c => c == 1))).isEmpty = true
  · rw [if_pos hemp]
    intro row hrow
    rcases List.mem_cons.mp hrow with rfl | h
    · rfl
    · cases h
  · rw [if_neg hemp]
    have hfil : Rect (g.filter (fun row => row.any (fun c => c == 1))) w := by
      intro row hrow
      exact hg row (List.mem_filter.mp hrow).1
    have hrect := rect_sliceRows hfil
    have hne : sliceRows (g.filter (fun row => row.any (fun c => c == 1))) ≠ [] := by
      rw [sliceRows]
      intro hcon
      apply hemp
      rw [List.isEmpty_iff]
      exact List.map_eq_nil_iff.mp hcon
    rw [headD_length_of_rect hrect hne]
    exact hrect

/-! Helper lemmas: the `getVariants` loop. -/

lemma pushVariant_all {P : List (List Nat) → Prop} {seen : List String}
    {vars : List (List (List Nat))} {g : List (List Nat)}
    (hvars : ∀ v ∈ vars, P v) (hg : P g) :
    ∀ v ∈ (pushVariant seen vars g).2, P v := by
  rw [pushVariant]
  split
  · exact hvars
  · intro v hv
    rcases List.mem_append.mp hv with h | h
    · exact hvars v h
    · rw [List.mem_singleton.mp h]
      exact hg

lemma pushVariant_append (seen : List String) (vars : List (List (List Nat)))
    (g : List (List Nat)) :
    ∃ t, (pushVariant seen vars g).2 = vars ++ t ∧ t.length ≤ 1 := by
  rw [pushVariant]
  split
  · exact ⟨[], by simp, by simp⟩
  · exact ⟨[g], rfl, by simp⟩

lemma pushVariant_seen_mono {seen : List String} {vars : List (List (List Nat))}
    {g : List (List Nat)} {k : String} (h : k ∈ seen) :
    k ∈ (pushVariant seen vars g).1 := by
  rw [pushVariant]
  split
  · exact h
  · exact List.mem_cons_of_mem _ h

lemma pushVariant_keysInv {seen : List String} {vars : List (List (List Nat))}
    {g : List (List Nat)} (h : KeysInv (seen, vars)) :
    KeysInv (pushVariant seen vars g) := by
  obtain ⟨hkeys, hpw⟩ := h
  rw [pushVariant]
  split
  · exact ⟨hkeys, hpw⟩
  · rename_i hc
    constructor
    · intro v hv
      rcases List.mem_append.mp hv with hv | hv
      · exact List.mem_cons_of_mem _ (hkeys v hv)
      · rw [List.mem_singleton.mp hv]
        exact List.mem_cons_self _ _
    · rw [List.pairwise_append]
      refine ⟨hpw, List.pairwise_singleton _ _, ?_⟩
      intro a ha b hb
      rw [List.mem_singleton.mp hb]
      intro heq
      apply hc
      have : gridToKey g ∈ seen := by
        rw [← heq]
        exact hkeys a ha
      exact List.elem_iff.mpr this

lemma variantStep_keysInv {st : (List String × List (List (List Nat))) × List (List Nat)}
    (h : KeysInv st.1) : KeysInv (variantStep st).1 := by
  rw [variantStep]
  apply pushVariant_keysInv
  have h1 : KeysInv (pushVariant st.1.1 st.1.2 (normalize st.2)) := by
    apply pushVariant_keysInv
    exact h
  exact h1

lemma variantStep_append (st : (List String × List (List (List Nat))) × List (List Nat)) :
    ∃ t, (variantStep st).1.2 = st.1.2 ++ t ∧ t.length ≤ 2 := by
  rw [variantStep]
  obtain ⟨t1, ht1, hl1⟩ := pushVariant_append st.1.1 st.1.2 (normalize st.2)
  obtain ⟨t2, ht2, hl2⟩ :=
    pushVariant_append (pushVariant st.1.1 st.1.2 (normalize st.2)).1
      (pushVariant st.1.1 st.1.2 (normalize st.2)).2 (normalize (flip st.2))
  refine ⟨t1 ++ t2, ?_, ?_⟩
  · rw [ht2, ht1, List.append_assoc]
  · rw [List.length_append]
    omega

lemma variantStep_stepInv {n : Nat}
    {st : (List String × List (List (List Nat))) × List (List Nat)}
    (h : StepInv n st) : StepInv n (variantStep st) := by
  obtain ⟨hvars, hlen, hwid, hrect, hcnt⟩ := h
  have hne : st.2 ≠ [] := List.length_pos.mp hlen
  have hgood1 : GoodVariant n (normalize st.2) :=
    ⟨by rw [fillCount_normalize]; exact hcnt, normalize_ne_nil _, rect_normalize hrect⟩
  have hgood2 : GoodVariant n (normalize (flip st.2)) :=
    ⟨by rw [fillCount_normalize, fillCount_flip]; exact hcnt, normalize_ne_nil _,
      rect_normalize (rect_flip hrect)⟩
  have hrotne : rotate st.2 ≠ [] := by
    apply List.length_pos.mp
    rw [length_rotate]
    exact hwid
  have hrothead : ((rotate st.2).headD []).length = st.2.length :=
    headD_length_of_rect (rect_rotate st.2) hrotne
  refine ⟨?_, ?_, ?_, ?_, ?_⟩
  · rw [variantStep]
    apply pushVariant_all (pushVariant_all hvars hgood1) hgood2
  · show 0 < (rotate st.2).length
    rw [length_rotate]
    exact hwid
  · show 0 < ((rotate st.2).headD []).length
    rw [hrothead]
    exact hlen
  · show Rect (rotate st.2) (((rotate st.2).headD []).length)
    rw [hrothead]
    exact rect_rotate st.2
  · show fillCount (rotate st.2) = n
    rw [fillCount_rotate hrect hne]
    exact hcnt

lemma foldl_variantStep_pres (P : ((List String × List (List (List Nat))) × List (List Nat)) → Prop)
    (hP : ∀ st, P st → P (variantStep st)) :
    ∀ (l : List Nat) st, P st → P (l.foldl (fun s _ => variantStep s) st) := by
  intro l
  induction l with
  | nil => intro st h; exact h
  | cons a t ih =>
    intro st h
    exact ih (variantStep st) (hP st h)

lemma foldl_variantStep_length :
    ∀ (l : List Nat) (st : (List String × List (List (List Nat))) × List (List Nat)),
      (l.foldl (fun s _ => variantStep s) st).1.2.length ≤ st.1.2.length + 2 * l.length := by
  intro l
  induction l with
  | nil => intro st; simp
  | cons a t ih =>
    intro st
    have hstep := variantStep_append st
    obtain ⟨u, hu, hul⟩ := hstep
    calc ((a :: t).foldl (fun s _ => variantStep s) st).1.2.length
        = (t.foldl (fun s _ => variantStep s) (variantStep st)).1.2.length := rfl
      _ ≤ (variantStep st).1.2.length + 2 * t.length := ih (variantStep st)
      _ ≤ st.1.2.length + 2 + 2 * t.length := by
          rw [hu, List.length_append]
          omega
      _ = st.1.2.length + 2 * (a :: t).length := by
          rw [List.length_cons]
          ring

lemma foldl_variantStep_ne_nil :
    ∀ (l : List Nat) (st : (List String × List (List (List Nat))) × List (List Nat)),
      st.1.2 ≠ [] → (l.foldl (fun s _ => variantStep s) st).1.2 ≠ [] := by
  intro l
  apply foldl_variantStep_pres (fun st => st.1.2 ≠ [])
  intro st h
  obtain ⟨t, ht, _⟩ := variantStep_append st
  show (variantStep st).1.2 ≠ []
  rw [ht]
  intro hcon
  exact h (List.append_eq_nil.mp hcon).1

lemma getVariants_eq_foldl (shape : Pentomino) :
    getVariants shape = (((List.range 4).foldl (fun st _ => variantStep st)
      (([], []), toGrid shape.matrix shape.width shape.height)).1).2 := rfl

lemma getVariants_length_le (shape : Pentomino) : (getVariants shape).length ≤ 8 := by
  rw [getVariants_eq_foldl]
  have := foldl_variantStep_length (List.range 4)
    ((([], []), toGrid shape.matrix shape.width shape.height))
  simpa using this

lemma getVariants_ne_nil (shape : Pentomino) : getVariants shape ≠ [] := by
  rw [getVariants_eq_foldl]
  have hr4 : List.range 4 = 0 :: [1, 2, 3] := rfl
  rw [hr4, List.foldl_cons]
  apply foldl_variantStep_ne_nil
  rw [variantStep]
  have hp1 : (pushVariant ([] : List String) [] (normalize (toGrid shape.matrix shape.width shape.height))).2
      = [normalize (toGrid shape.matrix shape.width shape.height)] := by
    rw [pushVariant]
    split
    · rename_i hc
      simp [List.contains] at hc
    · rfl
  show (pushVariant _ _ _).2 ≠ []
  obtain ⟨t, ht, _⟩ := pushVariant_append
    (pushVariant ([] : List String) [] (normalize (toGrid shape.matrix shape.width shape.height))).1
    (pushVariant ([] : List String) [] (normalize (toGrid shape.matrix shape.width shape.height))).2
    (normalize (flip (toGrid shape.matrix shape.width shape.height)))
  rw [ht, hp1]
  simp

lemma getVariants_pairwise (shape : Pentomino) :
    (getVariants shape).Pairwise (fun a b => a ≠ b) := by
  rw [getVariants_eq_foldl]
  have hinv : KeysInv (((List.range 4).foldl (fun st _ => variantStep st)
      (([], []), toGrid shape.matrix shape.width shape.height)).1) := by
    apply foldl_variantStep_pres (fun st => KeysInv st.1)
      (fun st h => variantStep_keysInv h) (List.range 4)
    constructor
    · intro v hv
      cases hv
    · exact List.Pairwise.nil
  exact hinv.2

lemma getVariants_good {shape : Pentomino}
    (hlen : shape.matrix.length = shape.width * shape.height)
    (hw : 0 < shape.width) (hh : 0 < shape.height) :
    ∀ v ∈ getVariants shape, GoodVariant (shape.matrix.count 1) v := by
  rw [getVariants_eq_foldl]
  have hgrid : Rect (toGrid shape.matrix shape.width shape.height) shape.width :=
    rect_toGrid hlen
  have hgl : (toGrid shape.matrix shape.width shape.height).length = shape.height :=
    length_toGrid _ _ _
  have hne : toGrid shape.matrix shape.width shape.height ≠ [] := by
    apply List.length_pos.mp
    rw [hgl]
    exact hh
  have hhead : ((toGrid shape.matrix shape.width shape.height).headD []).length = shape.width :=
    headD_length_of_rect hgrid hne
  have hinv : StepInv (shape.matrix.count 1)
      (((List.range 4).foldl (fun st _ => variantStep st)
        (([], []), toGrid shape.matrix shape.width shape.height))) := by
    apply foldl_variantStep_pres (StepInv (shape.matrix.count 1))
      (fun st h => variantStep_stepInv h)
    refine ⟨?_, ?_, ?_, ?_, ?_⟩
    · intro v hv
      cases hv
    · show 0 < (toGrid shape.matrix shape.width shape.height).length
      rw [hgl]
      exact hh
    · show 0 < ((toGrid shape.matrix shape.width shape.height).headD []).length
      rw [hhead]
      exact hw
    · show Rect (toGrid shape.matrix shape.width shape.height) _
      rw [hhead]
      exact hgrid
    · exact fillCount_toGrid hlen
  exact hinv.1

lemma getVariants_id_irrelevant (i : Nat) (shape : Pentomino) :
    getVariants (Pentomino.mk i shape.height shape.width shape.matrix) = getVariants shape := by
  cases shape
  rfl

lemma getShapeCellCount_eq_count (shape : Pentomino) :
    getShapeCellCount shape = shape.matrix.count 1 := by
  rw [getShapeCellCount, List.count_eq_countP, List.countP_eq_length_filter]

/-! Helper lemmas: placement enumeration. -/

lemma mem_variantCells {v : List (List Nat)} {py px gw c : Nat} :
    c ∈ variantCells v py px gw ↔
      ∃ y x, y < v.length ∧ x < (v.headD []).length ∧
        (v.getD y []).getD x 0 = 1 ∧ c = (py + y) * gw + (px + x) := by
  rw [variantCells]
  simp only [List.mem_flatMap, List.mem_filterMap, List.mem_range]
  constructor
  · rintro ⟨y, hy, x, hx, hval⟩
    by_cases hcell : ((v.getD y []).getD x 0 == 1) = true
    · rw [if_pos hcell] at hval
      exact ⟨y, x, hy, hx, beq_iff_eq.mp hcell, (Option.some.inj hval).symm⟩
    · rw [if_neg hcell] at hval
      cases hval
  · rintro ⟨y, x, hy, hx, hcell, rfl⟩
    refine ⟨y, hy, x, hx, ?_⟩
    rw [if_pos (beq_iff_eq.mpr hcell)]

lemma mem_placementsOfVariants {variants : List (List (List Nat))} {gw gh : Nat}
    {p : List Nat} :
    p ∈ placementsOfVariants variants gw gh ↔
      ∃ v ∈ variants, ∃ py px, py + v.length ≤ gh ∧ px + (v.headD []).length ≤ gw ∧
        p = variantCells v py px gw := by
  rw [placementsOfVariants]
  simp only [List.mem_flatMap]
  constructor
  · rintro ⟨v, hv, py, hpy, hp⟩
    by_cases hvh : v.length ≤ gh
    · rw [if_pos hvh, List.mem_range] at hpy
      rw [List.mem_map] at hp
      obtain ⟨px, hpx, rfl⟩ := hp
      by_cases hvw : (v.headD []).length ≤ gw
      · rw [if_pos hvw, List.mem_range] at hpx
        exact ⟨v, hv, py, px, by omega, by omega, rfl⟩
      · rw [if_neg hvw] at hpx
        cases hpx
    · rw [if_neg hvh] at hpy
      cases hpy
  · rintro ⟨v, hv, py, px, hpy, hpx, rfl⟩
    refine ⟨v, hv, ?_⟩
    have hvh : v.length ≤ gh := le_trans (Nat.le_add_left _ _) hpy
    have hvw : (v.headD []).length ≤ gw := le_trans (Nat.le_add_left _ _) hpx
    refine ⟨py, ?_, ?_⟩
    · rw [if_pos hvh, List.mem_range]
      omega
    · rw [List.mem_map]
      refine ⟨px, ?_, rfl⟩
      rw [if_pos hvw, List.mem_range]
      omega

lemma mem_variantCells_lt {v : List (List Nat)} {py px gw gh c : Nat}
    (hpy : py + v.length ≤ gh) (hpx : px + (v.headD []).length ≤ gw)
    (hc : c ∈ variantCells v py px gw) : c < gw * gh := by
  rw [mem_variantCells] at hc
  obtain ⟨y, x, hy, hx, _, rfl⟩ := hc
  have h1 : py + y + 1 ≤ gh := by omega
  calc (py + y) * gw + (px + x) < (py + y) * gw + gw := by omega
    _ = (py + y + 1) * gw := by ring
    _ ≤ gh * gw := Nat.mul_le_mul_right gw h1
    _ = gw * gh := Nat.mul_comm _ _

lemma placement_cells_lt {shape : Pentomino} {gw gh : Nat} {p : List Nat} {c : Nat}
    (hp : p ∈ getShapePlacements shape gw gh) (hc : c ∈ p) : c < gw * gh := by
  rw [getShapePlacements, mem_placementsOfVariants] at hp
  obtain ⟨v, _, py, px, hpy, hpx, rfl⟩ := hp
  exact mem_variantCells_lt hpy hpx hc

lemma sum_map_range (g : Nat → Nat) (n : Nat) :
    ((List.range n).map g).sum = ∑ i ∈ Finset.range n, g i := by
  induction n with
  | zero => simp
  | succ n ih =>
    rw [List.range_succ, List.map_append, List.sum_append, Finset.sum_range_succ, ih]
    simp

lemma length_filterMap_ite (l : List Nat) (p : Nat → Bool) (g : Nat → Nat) :
    (l.filterMap (fun x => if p x then some (g x) else none)).length = l.countP p := by
  induction l with
  | nil => rfl
  | cons a t ih =>
    rw [List.filterMap_cons, List.countP_cons]
    by_cases hp : p a = true
    · rw [if_pos hp, if_pos hp, List.length_cons, ih]
    · rw [if_neg hp, if_neg hp, ih]
      omega

lemma countP_getD_range (row : List Nat) :
    (List.range row.length).countP (fun x => row.getD x 0 == 1) = row.count 1 := by
  rw [countP_range_eq_sum, count_one_eq_sum]
  apply Finset.sum_congr rfl
  intro i _
  by_cases hv : row.getD i 0 = 1 <;> simp [hv]

lemma length_variantCells {v : List (List Nat)} (hrect : Rect v ((v.headD []).length))
    (py px gw : Nat) : (variantCells v py px gw).length = fillCount v := by
  rw [variantCells, List.length_flatMap,
    sum_map_range _ v.length, fillCount_eq_sum, sum_map_getD v _ ([] : List Nat)]
  apply Finset.sum_congr rfl
  intro y hy
  rw [Finset.mem_range] at hy
  have hrow : (v.getD y []).length = (v.headD []).length := by
    apply hrect
    rw [List.getD_eq_getElem _ _ hy]
    exact List.getElem_mem hy
  simp only [Function.comp_apply]
  rw [length_filterMap_ite _ (fun x => (v.getD y []).getD x 0 == 1) _, ← hrow,
    countP_getD_range]

/-! Helper lemmas: the feasibility checker. -/

lemma canFitRegion_eq (region : Region) (shapes : List Pentomino) :
    canFitRegion region shapes =
      match totalCellsNeeded region.pieces shapes with
      | none => none
      | some totalCells =>
        if totalCells > region.width * region.height then some false
        else if (buildPieceInstances region.pieces).length = 0 then some true
        else
          match buildConstraints (buildPieceInstances region.pieces) shapes
              region.width region.height with
          | none => none
          | some rows =>
            some (dlxSolve (buildPieceInstances region.pieces).length
              (region.width * region.height) rows) := rfl

lemma canFitRegionInstr_eq (region : Region) (shapes : List Pentomino) :
    canFitRegionInstr region shapes =
      match totalCellsNeeded region.pieces shapes with
      | none => (none, 0)
      | some totalCells =>
        if totalCells > region.width * region.height then (some false, 0)
        else if (buildPieceInstances region.pieces).length = 0 then (some true, 0)
        else
          match constraintRowsInstr (buildPieceInstances region.pieces) shapes
              region.width region.height
              (List.range (buildPieceInstances region.pieces).length) with
          | (none, n) => (none, n)
          | (some rows, n) =>
            ((some (dlxSolve (buildPieceInstances region.pieces).length
              (region.width * region.height) rows)), n) := rfl

lemma totalCellsAux_isSome (pieces : List Nat) (shapes : List Pentomino) :
    ∀ idxs : List Nat, (∀ i ∈ idxs, pieces.getD i 0 > 0 → i < shapes.length) →
      (totalCellsAux pieces shapes idxs).isSome := by
  intro idxs
  induction idxs with
  | nil => intro _; rfl
  | cons i rest ih =>
    intro h
    rw [totalCellsAux]
    by_cases hpos : pieces.getD i 0 > 0
    · rw [if_pos hpos]
      have hlt : i < shapes.length := h i (List.mem_cons_self _ _) hpos
      have hrest := ih (fun j hj => h j (List.mem_cons_of_mem _ hj))
      obtain ⟨t, htt⟩ := Option.isSome_iff_exists.mp hrest
      rw [List.getElem?_eq_getElem hlt, htt]
      rfl
    · rw [if_neg hpos]
      exact ih (fun j hj => h j (List.mem_cons_of_mem _ hj))

lemma mem_buildPieceInstances {pieces : List Nat} {j : Nat} :
    j ∈ buildPieceInstances pieces ↔ j < pieces.length ∧ pieces.getD j 0 > 0 := by
  rw [buildPieceInstances]
  simp only [List.mem_flatMap, List.mem_range, List.mem_replicate]
  constructor
  · rintro ⟨i, hi, hne, rfl⟩
    exact ⟨hi, Nat.pos_of_ne_zero hne⟩
  · rintro ⟨hj, hpos⟩
    exact ⟨j, hj, Nat.pos_iff_ne_zero.mp hpos, rfl⟩

lemma constraintRows_isSome (pi : List Nat) (shapes : List Pentomino) (gw gh : Nat) :
    ∀ idxs : List Nat, (∀ k ∈ idxs, pi.getD k 0 < shapes.length) →
      (constraintRows pi shapes gw gh idxs).isSome := by
  intro idxs
  induction idxs with
  | nil => intro _; rfl
  | cons k rest ih =>
    intro h
    rw [constraintRows]
    rw [List.getElem?_eq_getElem (h k (List.mem_cons_self _ _))]
    have hrest := ih (fun j hj => h j (List.mem_cons_of_mem _ hj))
    obtain ⟨rows, hrows⟩ := Option.isSome_iff_exists.mp hrest
    rw [hrows]
    rfl

lemma constraintRows_mem (pi : List Nat) (shapes : List Pentomino) (gw gh : Nat) :
    ∀ (idxs : List Nat) (rows : List (List Nat × List Nat)),
      constraintRows pi shapes gw gh idxs = some rows →
      ∀ r ∈ rows, ∃ i ∈ idxs, r.1 = [i] ∧
        ∃ s, shapes[pi.getD i 0]? = some s ∧ r.2 ∈ getShapePlacements s gw gh := by
  intro idxs
  induction idxs with
  | nil =>
    intro rows h r hr
    rw [constraintRows] at h
    cases Option.some.inj h
    cases hr
  | cons k rest ih =>
    intro rows h r hr
    rw [constraintRows] at h
    cases hs : shapes[pi.getD k 0]? with
    | none => rw [hs] at h; cases h
    | some s =>
      rw [hs] at h
      cases hrec : constraintRows pi shapes gw gh rest with
      | none => rw [hrec] at h; cases h
      | some rows' =>
        rw [hrec] at h
        cases Option.some.inj h
        rcases List.mem_append.mp hr with hmem | hmem
        · obtain ⟨cells, hcells, rfl⟩ := List.mem_map.mp hmem
          exact ⟨k, List.mem_cons_self _ _, rfl, s, hs, hcells⟩
        · obtain ⟨i, hi, h1, s', hs', h2⟩ := ih rows' hrec r hmem
          exact ⟨i, List.mem_cons_of_mem _ hi, h1, s', hs', h2⟩

lemma dlxSolve_eq_true_iff {np ns : Nat} {rows : List (List Nat × List Nat)} :
    dlxSolve np ns rows = true ↔
      ∃ sel : List (List Nat × List Nat), sel.Sublist rows ∧
        (∀ p, p < np → sel.countP (fun r => r.1.contains p) = 1) ∧
        (∀ c, c < ns → sel.countP (fun r => r.2.contains c) ≤ 1) := by
  rw [dlxSolve, List.any_eq_true]
  constructor
  · rintro ⟨sel, hsel, hpred⟩
    rw [Bool.and_eq_true, List.all_eq_true, List.all_eq_true] at hpred
    obtain ⟨hA, hB⟩ := hpred
    refine ⟨sel, List.mem_sublists.mp hsel, ?_, ?_⟩
    · intro p hp
      exact beq_iff_eq.mp (hA p (List.mem_range.mpr hp))
    · intro c hc
      exact of_decide_eq_true (hB c (List.mem_range.mpr hc))
  · rintro ⟨sel, hsub, h1, h2⟩
    refine ⟨sel, List.mem_sublists.mpr hsub, ?_⟩
    rw [Bool.and_eq_true, List.all_eq_true, List.all_eq_true]
    constructor
    · intro p hp
      exact beq_iff_eq.mpr (h1 p (List.mem_range.mp hp))
    · intro c hc
      exact decide_eq_true (h2 c (List.mem_range.mp hc))

lemma countP_le_one_pairwise {sel : List (List Nat × List Nat)} {ns : Nat}
    (hcells : ∀ r ∈ sel, ∀ c ∈ r.2, c < ns)
    (h : ∀ c, c < ns → sel.countP (fun r => r.2.contains c) ≤ 1) :
    sel.Pairwise (fun r1 r2 => ∀ c ∈ r1.2, c ∉ r2.2) := by
  induction sel with
  | nil => exact List.Pairwise.nil
  | cons a t ih =>
    rw [List.pairwise_cons]
    constructor
    · intro b hb c hca hcb
      have hlt : c < ns := hcells a (List.mem_cons_self _ _) c hca
      have hcnt := h c hlt
      rw [List.countP_cons] at hcnt
      have hpa : (a.2.contains c) = true := List.elem_iff.mpr hca
      rw [if_pos hpa] at hcnt
      have hpos : 0 < t.countP (fun r => r.2.contains c) :=
        List.countP_pos_iff.mpr ⟨b, hb, List.elem_iff.mpr hcb⟩
      omega
    · apply ih
      · intro r hr
        exact hcells r (List.mem_cons_of_mem _ hr)
      · intro c hc
        have hcnt := h c hc
        rw [List.countP_cons] at hcnt
        by_cases hpa : (a.2.contains c) = true
        · rw [if_pos hpa] at hcnt
          omega
        · rw [if_neg hpa] at hcnt
          omega

lemma contains_singleton_iff {i p : Nat} : ([i].contains p) = true ↔ p = i := by
  rw [List.contains_cons]
  simp

/-! Helper lemmas: single-cell shapes and concrete constraint computation. -/

lemma mem_allBin : ∀ (n : Nat) (m : List Nat), (∀ c ∈ m, c ≤ 1) → m.length = n →
    m ∈ allBin n := by
  intro n
  induction n with
  | zero =>
    intro m _ hlen
    rw [List.length_eq_zero] at hlen
    subst hlen
    exact List.mem_cons_self _ _
  | succ n ih =>
    intro m hbin hlen
    cases m with
    | nil => cases hlen
    | cons c t =>
      rw [allBin, List.mem_flatMap]
      refine ⟨t, ih t (fun x hx => hbin x (List.mem_cons_of_mem _ hx)) (by
        rw [List.length_cons] at hlen
        omega), ?_⟩
      have hc : c ≤ 1 := hbin c (List.mem_cons_self _ _)
      interval_cases c
      · exact List.mem_cons_self _ _
      · exact List.mem_cons_of_mem _ (List.mem_cons_self _ _)

set_option maxRecDepth 4000 in
lemma single_of_count_one : ∀ m ∈ allBin 9, (m.filter (fun c => c == 1)).length = 1 →
    m ∈ singleCellMatrices := by decide

lemma getVariants_congr {s1 s2 : Pentomino} (hm : s1.matrix = s2.matrix)
    (hw : s1.width = s2.width) (hh : s1.height = s2.height) :
    getVariants s1 = getVariants s2 := by
  cases s1
  cases s2
  simp only at hm hw hh
  subst hm
  subst hw
  subst hh
  rfl

lemma variants_of_single : ∀ m ∈ singleCellMatrices,
    getVariants (⟨0, 3, 3, m⟩ : Pentomino) = [[[1]]] := by decide

lemma constraintRows_single (s : Pentomino) (gw gh : Nat) (pi : List Nat) :
    ∀ idxs : List Nat, (∀ i ∈ idxs, pi.getD i 0 = 0) →
      constraintRows pi [s] gw gh idxs =
        some (idxs.flatMap (fun i =>
          (getShapePlacements s gw gh).map (fun cells => ([i], cells)))) := by
  intro idxs
  induction idxs with
  | nil => intro _; rfl
  | cons i rest ih =>
    intro h
    rw [constraintRows, h i (List.mem_cons_self _ _)]
    rw [ih (fun j hj => h j (List.mem_cons_of_mem _ hj))]
    rw [List.flatMap_cons]
    rfl

/-! Helper lemmas: shapes with zero filled cells. -/

lemma no_one_of_cellCount_zero {shape : Pentomino} (h : getShapeCellCount shape = 0) :
    (1 : Nat) ∉ shape.matrix := by
  rw [getShapeCellCount, List.length_eq_zero, List.filter_eq_nil_iff] at h
  intro hmem
  exact h 1 hmem (by simp)

lemma rows_no_one_toGrid {m : List Nat} (hm : (1 : Nat) ∉ m) (w h : Nat) :
    ∀ row ∈ toGrid m w h, (1 : Nat) ∉ row := by
  intro row hrow hmem
  rw [toGrid] at hrow
  obtain ⟨y, _, rfl⟩ := List.mem_map.mp hrow
  have h1 : (1 : Nat) ∈ m.drop (y * w) := List.Sublist.mem hmem (List.take_sublist _ _)
  exact hm (List.Sublist.mem h1 (List.drop_sublist _ _))

lemma entries_getD_ne_one {g : List (List Nat)} (h : ∀ row ∈ g, (1 : Nat) ∉ row)
    (y x : Nat) : (g.getD y []).getD x 0 ≠ 1 := by
  by_cases hy : y < g.length
  · have hrow : g.getD y [] ∈ g := by
      rw [List.getD_eq_getElem _ _ hy]
      exact List.getElem_mem hy
    by_cases hx : x < (g.getD y []).length
    · intro hcon
      apply h _ hrow
      have hmem : (g.getD y []).getD x 0 ∈ g.getD y [] := by
        rw [List.getD_eq_getElem _ _ hx]
        exact List.getElem_mem hx
      rw [hcon] at hmem
      exact hmem
    · rw [getD_eq_default_of_le (by omega) 0]
      omega
  · have hgd : g.getD y [] = [] := getD_eq_default_of_le (show g.length ≤ y by omega) []
    rw [hgd]
    intro hcon
    cases hcon

lemma rows_no_one_rotate {g : List (List Nat)} (h : ∀ row ∈ g, (1 : Nat) ∉ row) :
    ∀ row ∈ rotate g, (1 : Nat) ∉ row := by
  intro row hrow hmem
  rw [rotate] at hrow
  obtain ⟨x, _, rfl⟩ := List.mem_map.mp hrow
  obtain ⟨y, _, hval⟩ := List.mem_map.mp hmem
  exact entries_getD_ne_one h y x hval

lemma rows_no_one_flip {g : List (List Nat)} (h : ∀ row ∈ g, (1 : Nat) ∉ row) :
    ∀ row ∈ flip g, (1 : Nat) ∉ row := by
  intro row hrow hmem
  rw [flip] at hrow
  obtain ⟨r, hr, rfl⟩ := List.mem_map.mp hrow
  exact h r hr (List.mem_reverse.mp hmem)

lemma normalize_no_one {g : List (List Nat)} (h : ∀ row ∈ g, (1 : Nat) ∉ row) :
    normalize g = [[]] := by
  rw [normalize]
  have hfil : g.filter (fun row => row.any (fun c => c == 1)) = [] := by
    rw [List.filter_eq_nil_iff]
    intro row hrow hany
    rw [List.any_eq_true] at hany
    obtain ⟨c, hc, hc1⟩ := hany
    rw [beq_iff_eq] at hc1
    subst hc1
    exact h row hrow hc
  rw [hfil]
  rfl

lemma variantStep_stable {st : (List String × List (List (List Nat))) × List (List Nat)}
    (hseen : st.1.1 = [gridToKey [[]]]) (hvars : st.1.2 = [[[]]])
    (hg : ∀ row ∈ st.2, (1 : Nat) ∉ row) :
    (variantStep st).1.1 = [gridToKey [[]]] ∧ (variantStep st).1.2 = [[[]]] ∧
      (∀ row ∈ (variantStep st).2, (1 : Nat) ∉ row) := by
  have hn1 : normalize st.2 = [[]] := normalize_no_one hg
  have hn2 : normalize (flip st.2) = [[]] := normalize_no_one (rows_no_one_flip hg)
  have hpush : pushVariant [gridToKey [[]]] [[[]]] [[]] = ([gridToKey [[]]], [[[]]]) := by
    rw [pushVariant]
    rw [if_pos (by simp [List.contains_cons])]
  have hmain : variantStep st = (([gridToKey [[]]], [[[]]]), rotate st.2) := by
    rw [variantStep, hn1, hn2, hseen, hvars]
    simp only [hpush]
  rw [hmain]
  exact ⟨rfl, rfl, rows_no_one_rotate hg⟩

lemma getVariants_empty (shape : Pentomino) (hz : (1 : Nat) ∉ shape.matrix) :
    getVariants shape = [[[]]] := by
  rw [getVariants_eq_foldl]
  have hg0 : ∀ row ∈ toGrid shape.matrix shape.width shape.height, (1 : Nat) ∉ row :=
    rows_no_one_toGrid hz _ _
  have hr4 : List.range 4 = 0 :: [1, 2, 3] := rfl
  rw [hr4, List.foldl_cons]
  have hstep1 : variantStep (([], []), toGrid shape.matrix shape.width shape.height) =
      (([gridToKey [[]]], [[[]]]), rotate (toGrid shape.matrix shape.width shape.height)) := by
    rw [variantStep]
    have hn1 : normalize (toGrid shape.matrix shape.width shape.height) = [[]] :=
      normalize_no_one hg0
    have hn2 : normalize (flip (toGrid shape.matrix shape.width shape.height)) = [[]] :=
      normalize_no_one (rows_no_one_flip hg0)
    rw [hn1, hn2]
    have hp1 : pushVariant ([] : List String) [] [[]] = ([gridToKey [[]]], [[[]]]) := rfl
    have hp2 : pushVariant [gridToKey [[]]] [[[]]] [[]] = ([gridToKey [[]]], [[[]]]) := by
      rw [pushVariant]
      rw [if_pos (by simp [List.contains_cons])]
    simp only [hp1, hp2]
  rw [hstep1]
  have hS : ∀ (l : List Nat) (st : (List String × List (List (List Nat))) × List (List Nat)),
      st.1.1 = [gridToKey [[]]] → st.1.2 = [[[]]] →
      (∀ row ∈ st.2, (1 : Nat) ∉ row) →
      (l.foldl (fun s _ => variantStep s) st).1.2 = [[[]]] := by
    intro l
    induction l with
    | nil =>
      intro st _ h2 _
      exact h2
    | cons a t ih =>
      intro st h1 h2 h3
      rw [List.foldl_cons]
      obtain ⟨k1, k2, k3⟩ := variantStep_stable h1 h2 h3
      exact ih _ k1 k2 k3
  exact hS [1, 2, 3] _ rfl rfl (rows_no_one_rotate hg0)

lemma placements_of_empty_variant {shape : Pentomino} (hvar : getVariants shape = [[[]]])
    (gw gh : Nat) : ∀ p ∈ getShapePlacements shape gw gh, p = [] := by
  intro p hp
  rw [getShapePlacements, hvar, mem_placementsOfVariants] at hp
  obtain ⟨v, hv, py, px, _, _, rfl⟩ := hp
  rw [List.mem_singleton] at hv
  subst hv
  rfl

lemma placements_empty_mem {shape : Pentomino} (hvar : getVariants shape = [[[]]])
    {W H : Nat} (hH : 0 < H) : ([] : List Nat) ∈ getShapePlacements shape W H := by
  rw [getShapePlacements, hvar, mem_placementsOfVariants]
  refine ⟨[[]], List.mem_singleton.mpr rfl, 0, 0, ?_, ?_, rfl⟩
  · show 0 + ([[]] : List (List Nat)).length ≤ H
    simp
    omega
  · show 0 + (([[]] : List (List Nat)).headD []).length ≤ W
    simp

lemma getD_replicate_zero (n i : Nat) : (List.replicate n (0 : Nat)).getD i 0 = 0 := by
  by_cases hi : i < n
  · rw [List.getD_eq_getElem _ _ (by rw [List.length_replicate]; exact hi)]
    simp
  · rw [getD_eq_default_of_le (by rw [List.length_replicate]; omega) 0]

lemma buildPieceInstances_single (n : Nat) : buildPieceInstances [n] = List.replicate n 0 := by
  rw [buildPieceInstances]
  have h1 : List.range ([n] : List Nat).length = [0] := rfl
  rw [h1, List.flatMap_cons, List.flatMap_nil, List.append_nil]
  rfl

lemma sel_sublist_flatMap (placements : List (List Nat))
    (hmem : ([] : List Nat) ∈ placements) :
    ∀ idxs : List Nat, (idxs.map (fun i => (([i] : List Nat), ([] : List Nat)))).Sublist
      (idxs.flatMap (fun i => placements.map (fun cells => ([i], cells)))) := by
  intro idxs
  induction idxs with
  | nil => exact List.Sublist.refl _
  | cons a t ih =>
    rw [List.map_cons, List.flatMap_cons]
    have h1 : [(([a] : List Nat), ([] : List Nat))].Sublist
        (placements.map (fun cells => ([a], cells))) := by
      rw [List.singleton_sublist, List.mem_map]
      exact ⟨[], hmem, rfl⟩
    exact List.Sublist.append h1 ih

lemma countP_primary_map_range (n p : Nat) (hp : p < n) :
    List.countP (fun r => r.1.contains p)
      ((List.range n).map (fun i => (([i] : List Nat), ([] : List Nat)))) = 1 := by
  rw [List.countP_map, countP_range_eq_sum]
  have hcong : ∀ i ∈ Finset.range n,
      (if (((fun r => r.1.contains p) ∘ fun i => (([i] : List Nat), ([] : List Nat))) i = true)
          then (1 : Nat) else 0) = if p = i then 1 else 0 := by
    intro i _
    by_cases hpi : p = i
    · rw [if_pos hpi, if_pos]
      exact contains_singleton_iff.mpr hpi
    · rw [if_neg hpi, if_neg]
      intro hcon
      exact hpi (contains_singleton_iff.mp hcon)
  rw [Finset.sum_congr rfl hcong, Finset.sum_ite_eq, if_pos (Finset.mem_range.mpr hp)]

lemma countP_secondary_map_range (n c : Nat) :
    List.countP (fun r => r.2.contains c)
      ((List.range n).map (fun i => (([i] : List Nat), ([] : List Nat)))) = 0 := by
  rw [List.countP_eq_zero]
  intro r hr
  obtain ⟨i, _, rfl⟩ := List.mem_map.mp hr
  show ¬((([] : List Nat).contains c) = true)
  simp

lemma totalCells_single (s : Pentomino) (n : Nat) (hn : 0 < n) :
    totalCellsNeeded [n] [s] = some (n * getShapeCellCount s + 0) := by
  rw [totalCellsNeeded]
  show totalCellsAux [n] [s] [0] = _
  rw [totalCellsAux, if_pos (show ([n] : List Nat).getD 0 0 > 0 from hn)]
  rfl

lemma canFit_empty_shape (shape : Pentomino) (hvar : getVariants shape = [[[]]])
    (hzero : getShapeCellCount shape = 0) (W H n : Nat) (hH : 0 < H) (hn : 0 < n) :
    canFitRegion (Region.mk W H [n]) [shape] = some true := by
  rw [canFitRegion_eq]
  have hpieces : (Region.mk W H [n]).pieces = [n] := rfl
  have hwid : (Region.mk W H [n]).width = W := rfl
  have hhei : (Region.mk W H [n]).height = H := rfl
  have htot : totalCellsNeeded [n] [shape] = some 0 := by
    rw [totalCells_single shape n hn, hzero]
    simp
  simp only [hpieces, hwid, hhei, htot]
  rw [if_neg (by omega : ¬((0 : Nat) > W * H))]
  have hpi : buildPieceInstances [n] = List.replicate n 0 := buildPieceInstances_single n
  have hlenpi : (buildPieceInstances [n]).length = n := by
    rw [hpi, List.length_replicate]
  rw [if_neg (by rw [hlenpi]; omega : ¬((buildPieceInstances [n]).length = 0))]
  have hbc := constraintRows_single shape W H (List.replicate n 0) (List.range n)
    (fun i _ => getD_replicate_zero n i)
  rw [buildConstraints, hpi, List.length_replicate]
  simp only [hbc]
  have hmem0 : ([] : List Nat) ∈ getShapePlacements shape W H := placements_empty_mem hvar hH
  have hdlx : dlxSolve n (W * H) ((List.range n).flatMap (fun i =>
      (getShapePlacements shape W H).map (fun cells => ([i], cells)))) = true := by
    rw [dlxSolve, List.any_eq_true]
    refine ⟨(List.range n).map (fun i => (([i] : List Nat), ([] : List Nat))), ?_, ?_⟩
    · rw [List.mem_sublists]
      exact sel_sublist_flatMap _ hmem0 _
    · rw [Bool.and_eq_true, List.all_eq_true, List.all_eq_true]
      constructor
      · intro p hp
        exact beq_iff_eq.mpr (countP_primary_map_range n p (List.mem_range.mp hp))
      · intro c _
        apply decide_eq_true
        rw [countP_secondary_map_range]
        omega
  rw [hdlx]

/-! Helper lemmas: decimal key injectivity for the placement cache. -/

lemma natStrAux_irrel : ∀ (f1 n f2 : Nat), n < f1 → n < f2 →
    natStrAux f1 n = natStrAux f2 n := by
  intro f1
  induction f1 with
  | zero =>
    intro n f2 h1 _
    omega
  | succ f ih =>
    intro n f2 h1 h2
    cases f2 with
    | zero => omega
    | succ f2' =>
      rw [natStrAux, natStrAux]
      by_cases hn : n < 10
      · rw [if_pos hn, if_pos hn]
      · rw [if_neg hn, if_neg hn]
        congr 1
        have hdiv : n / 10 < n := Nat.div_lt_self (by omega) (by omega)
        exact ih (n / 10) f2' (by omega) (by omega)

lemma natStr_eq (n : Nat) : natStr n =
    if n < 10 then [digitChar n] else natStr (n / 10) ++ [digitChar (n % 10)] := by
  rw [natStr, natStrAux]
  by_cases hn : n < 10
  · rw [if_pos hn, if_pos hn]
  · rw [if_neg hn, if_neg hn, natStr]
    congr 1
    have hdiv : n / 10 < n := Nat.div_lt_self (by omega) (by omega)
    exact natStrAux_irrel n (n / 10) (n / 10 + 1) (by omega) (by omega)

lemma digitChar_ne_underscore : ∀ d, d < 10 → digitChar d ≠ '_' := by decide

lemma digitChar_inj : ∀ d1, d1 < 10 → ∀ d2, d2 < 10 → digitChar d1 = digitChar d2 →
    d1 = d2 := by decide

lemma natStr_no_underscore : ∀ n, ∀ c ∈ natStr n, c ≠ '_' := by
  intro n
  induction n using Nat.strong_induction_on with
  | _ n ih =>
    rw [natStr_eq]
    by_cases hn : n < 10
    · rw [if_pos hn]
      intro c hc
      rw [List.mem_singleton] at hc
      subst hc
      exact digitChar_ne_underscore n hn
    · rw [if_neg hn]
      intro c hc
      rcases List.mem_append.mp hc with h | h
      · exact ih (n / 10) (Nat.div_lt_self (by omega) (by omega)) c h
      · rw [List.mem_singleton] at h
        subst h
        exact digitChar_ne_underscore (n % 10) (Nat.mod_lt n (by omega))

lemma natStr_length_ge_two (n : Nat) (hn : ¬n < 10) : 2 ≤ (natStr n).length := by
  rw [natStr_eq, if_neg hn, List.length_append]
  have h1 : 0 < (natStr (n / 10)).length := List.length_pos.mpr (by
    rw [natStr_eq]
    by_cases h : n / 10 < 10
    · rw [if_pos h]
      simp
    · rw [if_neg h]
      simp)
  simp only [List.length_singleton]
  omega

lemma natStr_inj : ∀ n m, natStr n = natStr m → n = m := by
  intro n
  induction n using Nat.strong_induction_on with
  | _ n ih =>
    intro m heq
    by_cases hn : n < 10 <;> by_cases hm : m < 10
    · rw [natStr_eq n, if_pos hn, natStr_eq m, if_pos hm] at heq
      simp only [List.cons.injEq] at heq
      exact digitChar_inj n hn m hm heq.1
    · exfalso
      have h1 : (natStr n).length = 1 := by rw [natStr_eq, if_pos hn]; rfl
      have h2 := natStr_length_ge_two m hm
      rw [heq] at h1
      omega
    · exfalso
      have h1 : (natStr m).length = 1 := by rw [natStr_eq, if_pos hm]; rfl
      have h2 := natStr_length_ge_two n hn
      rw [← heq] at h1
      omega
    · rw [natStr_eq n, if_neg hn, natStr_eq m, if_neg hm] at heq
      obtain ⟨hpre, hlast⟩ := List.append_inj' heq rfl
      simp only [List.cons.injEq] at hlast
      have hmod : n % 10 = m % 10 :=
        digitChar_inj _ (Nat.mod_lt _ (by omega)) _ (Nat.mod_lt _ (by omega)) hlast.1
      have hdiv : n / 10 = m / 10 :=
        ih (n / 10) (Nat.div_lt_self (by omega) (by omega)) (m / 10) hpre
      omega

lemma append_underscore_inj : ∀ (l1 l3 t t' : List Char),
    (∀ c ∈ l1, c ≠ '_') → (∀ c ∈ l3, c ≠ '_') →
    l1 ++ '_' :: t = l3 ++ '_' :: t' → l1 = l3 ∧ t = t' := by
  intro l1
  induction l1 with
  | nil =>
    intro l3 t t' _ h3 heq
    cases l3 with
    | nil =>
      rw [List.nil_append, List.nil_append] at heq
      simp only [List.cons.injEq] at heq
      exact ⟨rfl, heq.2⟩
    | cons c l3' =>
      exfalso
      rw [List.nil_append, List.cons_append] at heq
      simp only [List.cons.injEq] at heq
      exact h3 c (List.mem_cons_self _ _) heq.1.symm
  | cons c l1' ih =>
    intro l3 t t' h1 h3 heq
    cases l3 with
    | nil =>
      exfalso
      rw [List.nil_append, List.cons_append] at heq
      simp only [List.cons.injEq] at heq
      exact h1 c (List.mem_cons_self _ _) heq.1
    | cons d l3' =>
      rw [List.cons_append, List.cons_append] at heq
      simp only [List.cons.injEq] at heq
      obtain ⟨hcd, hrest⟩ := heq
      obtain ⟨ha, hb⟩ := ih l3' t t'
        (fun x hx => h1 x (List.mem_cons_of_mem _ hx))
        (fun x hx => h3 x (List.mem_cons_of_mem _ hx)) hrest
      subst hcd
      subst ha
      exact ⟨rfl, hb⟩

lemma placementKey_inj {a b c a' b' c' : Nat}
    (h : placementKey a b c = placementKey a' b' c') : a = a' ∧ b = b' ∧ c = c' := by
  rw [placementKey, placementKey] at h
  have hdata : natStr a ++ '_' :: (natStr b ++ '_' :: natStr c) =
      natStr a' ++ '_' :: (natStr b' ++ '_' :: natStr c') := congrArg String.data h
  obtain ⟨h1, h2⟩ := append_underscore_inj _ _ _ _
    (natStr_no_underscore a) (natStr_no_underscore a') hdata
  obtain ⟨h3, h4⟩ := append_underscore_inj _ _ _ _
    (natStr_no_underscore b) (natStr_no_underscore b') h2
  exact ⟨natStr_inj _ _ h1, natStr_inj _ _ h3, natStr_inj _ _ h4⟩

/-! Helper lemmas: association-list lookup and the cached functions. -/

lemma lookup_mem {α β : Type} [BEq α] [LawfulBEq α] {l : List (α × β)} {k : α} {v : β}
    (h : l.lookup k = some v) : (k, v) ∈ l := by
  induction l with
  | nil => cases h
  | cons p t ih =>
    obtain ⟨a, b⟩ := p
    rw [List.lookup_cons] at h
    cases hka : (k == a) with
    | true =>
      rw [hka] at h
      have hkv : b = v := Option.some.inj h
      have hke : k = a := eq_of_beq hka
      subst hkv
      subst hke
      exact List.mem_cons_self _ _
    | false =>
      rw [hka] at h
      exact List.mem_cons_of_mem _ (ih h)

lemma mem_of_getElem?_some {α : Type} {l : List α} {i : Nat} {a : α}
    (h : l[i]? = some a) : a ∈ l := by
  obtain ⟨hlt, hval⟩ := List.getElem?_eq_some.mp h
  rw [← hval]
  exact List.getElem_mem hlt

lemma getShapeCellCount_congr {s1 s2 : Pentomino} (hm : s1.matrix = s2.matrix) :
    getShapeCellCount s1 = getShapeCellCount s2 := by
  rw [getShapeCellCount, getShapeCellCount, hm]

lemma getCachedVariants_spec {shapes : List Pentomino} {c : Caches} {shape : Pentomino}
    (hu : idsConsistent shapes) (hc : validCaches shapes c) (hs : shape ∈ shapes) :
    (getCachedVariants c shape).1 = getVariants shape ∧
    validCaches shapes (getCachedVariants c shape).2 := by
  obtain ⟨gv, hgv⟩ : ∃ gv, gv = getVariants shape := ⟨_, rfl⟩
  cases hl : c.variantCache.lookup shape.id with
  | some v =>
    have hmain : getCachedVariants c shape = (v, c) := by
      rw [getCachedVariants, hl]
    rw [hmain]
    exact ⟨hc.1 (shape.id, v) (lookup_mem hl) shape hs rfl, hc⟩
  | none =>
    have hmain : getCachedVariants c shape = (gv,
        Caches.mk ((shape.id, gv) :: c.variantCache)
          c.placementCache c.cellCountCache) := by
      rw [getCachedVariants, hl, ← hgv]
    rw [hmain, ← hgv]
    constructor
    · with_reducible rfl
    · refine ⟨?_, hc.2.1, hc.2.2⟩
      intro p hp s hs' hid
      rcases List.mem_cons.mp hp with rfl | hp
      · obtain ⟨hm, hwi, hhe⟩ := hu s hs' shape hs hid
        have hres : gv = getVariants s := by
          rw [hgv]
          exact (getVariants_congr hm hwi hhe).symm
        exact hres
      · exact hc.1 p hp s hs' hid

lemma getShapeCellCountC_spec {shapes : List Pentomino} {c : Caches} {shape : Pentomino}
    (hu : idsConsistent shapes) (hc : validCaches shapes c) (hs : shape ∈ shapes) :
    (getShapeCellCountC c shape).1 = getShapeCellCount shape ∧
    validCaches shapes (getShapeCellCountC c shape).2 := by
  cases hl : c.cellCountCache.lookup shape.id with
  | some n =>
    have hmain : getShapeCellCountC c shape = (n, c) := by
      rw [getShapeCellCountC, hl]
    rw [hmain]
    exact ⟨hc.2.2 (shape.id, n) (lookup_mem hl) shape hs rfl, hc⟩
  | none =>
    have hmain : getShapeCellCountC c shape = (getShapeCellCount shape,
        Caches.mk c.variantCache c.placementCache
          ((shape.id, getShapeCellCount shape) :: c.cellCountCache)) := by
      rw [getShapeCellCountC, hl]
    rw [hmain]
    refine ⟨rfl, hc.1, hc.2.1, ?_⟩
    intro p hp s hs' hid
    rcases List.mem_cons.mp hp with rfl | hp
    · obtain ⟨hm, _, _⟩ := hu s hs' shape hs hid
      exact (getShapeCellCount_congr hm).symm
    · exact hc.2.2 p hp s hs' hid

lemma getShapePlacementsC_spec {shapes : List Pentomino} {c : Caches} {shape : Pentomino}
    {gw gh : Nat} (hu : idsConsistent shapes) (hc : validCaches shapes c)
    (hs : shape ∈ shapes) :
    (getShapePlacementsC c shape gw gh).1 = getShapePlacements shape gw gh ∧
    validCaches shapes (getShapePlacementsC c shape gw gh).2 := by
  cases hl : c.placementCache.lookup (placementKey shape.id gw gh) with
  | some v =>
    have hmain : getShapePlacementsC c shape gw gh = (v, c) := by
      rw [getShapePlacementsC, hl]
    rw [hmain]
    exact ⟨hc.2.1 (placementKey shape.id gw gh, v) (lookup_mem hl) shape hs gw gh rfl, hc⟩
  | none =>
    obtain ⟨hgv1, hgv2⟩ := getCachedVariants_spec hu hc hs
    obtain ⟨vc, hvc⟩ : ∃ vc, vc = getCachedVariants c shape := ⟨_, rfl⟩
    rw [← hvc] at hgv1 hgv2
    have hmain : getShapePlacementsC c shape gw gh =
        (placementsOfVariants vc.1 gw gh,
          Caches.mk vc.2.variantCache
            ((placementKey shape.id gw gh, placementsOfVariants vc.1 gw gh) ::
              vc.2.placementCache) vc.2.cellCountCache) := by
      rw [getShapePlacementsC, hl, ← hvc]
    rw [hmain]
    constructor
    · rw [hgv1, getShapePlacements]
    · refine ⟨hgv2.1, ?_, hgv2.2.2⟩
      intro p hp s hs' gw' gh' hkey
      rcases List.mem_cons.mp hp with rfl | hp
      · obtain ⟨hid, hgw, hgh⟩ := placementKey_inj hkey
        subst hgw
        subst hgh
        obtain ⟨hm, hwi, hhe⟩ := hu s hs' shape hs hid.symm
        have hres : placementsOfVariants vc.1 gw gh = getShapePlacements s gw gh := by
          rw [hgv1, getShapePlacements]
          exact congrArg (fun v => placementsOfVariants v gw gh)
            (getVariants_congr hm hwi hhe).symm
        exact hres
      · exact hgv2.2.1 p hp s hs' gw' gh' hkey

lemma totalCellsAuxC_spec {shapes : List Pentomino} (hu : idsConsistent shapes)
    (pieces : List Nat) :
    ∀ (idxs : List Nat) (c : Caches), validCaches shapes c →
      (totalCellsAuxC pieces shapes idxs c).1 = totalCellsAux pieces shapes idxs ∧
      validCaches shapes (totalCellsAuxC pieces shapes idxs c).2 := by
  intro idxs
  induction idxs with
  | nil =>
    intro c hc
    exact ⟨rfl, hc⟩
  | cons i rest ih =>
    intro c hc
    by_cases hpos : pieces.getD i 0 > 0
    · cases hsi : shapes[i]? with
      | none =>
        have hm1 : totalCellsAuxC pieces shapes (i :: rest) c = (none, c) := by
          rw [totalCellsAuxC, if_pos hpos, hsi]
        have hm2 : totalCellsAux pieces shapes (i :: rest) = none := by
          rw [totalCellsAux, if_pos hpos, hsi]
        rw [hm1, hm2]
        exact ⟨rfl, hc⟩
      | some s =>
        have hsmem : s ∈ shapes := mem_of_getElem?_some hsi
        obtain ⟨hcc1, hcc2⟩ := getShapeCellCountC_spec hu hc hsmem
        obtain ⟨ih1, ih2⟩ := ih (getShapeCellCountC c s).2 hcc2
        have hm1 : totalCellsAuxC pieces shapes (i :: rest) c =
            ((totalCellsAuxC pieces shapes rest (getShapeCellCountC c s).2).1.map
              (fun t => pieces.getD i 0 * (getShapeCellCountC c s).1 + t),
             (totalCellsAuxC pieces shapes rest (getShapeCellCountC c s).2).2) := by
          rw [totalCellsAuxC, if_pos hpos, hsi]
        have hm2 : totalCellsAux pieces shapes (i :: rest) =
            (totalCellsAux pieces shapes rest).map
              (fun t => pieces.getD i 0 * getShapeCellCount s + t) := by
          rw [totalCellsAux, if_pos hpos, hsi]
        rw [hm1, hm2]
        exact ⟨by rw [ih1, hcc1], ih2⟩
    · have hm1 : totalCellsAuxC pieces shapes (i :: rest) c =
          totalCellsAuxC pieces shapes rest c := by
        rw [totalCellsAuxC, if_neg hpos]
      have hm2 : totalCellsAux pieces shapes (i :: rest) =
          totalCellsAux pieces shapes rest := by
        rw [totalCellsAux, if_neg hpos]
      rw [hm1, hm2]
      exact ih c hc

lemma constraintRowsC_spec {shapes : List Pentomino} (hu : idsConsistent shapes)
    (pieceInstances : List Nat) (gw gh : Nat) :
    ∀ (idxs : List Nat) (c : Caches), validCaches shapes c →
      (constraintRowsC pieceInstances shapes gw gh idxs c).1 =
        constraintRows pieceInstances shapes gw gh idxs ∧
      validCaches shapes (constraintRowsC pieceInstances shapes gw gh idxs c).2 := by
  intro idxs
  induction idxs with
  | nil =>
    intro c hc
    exact ⟨rfl, hc⟩
  | cons i rest ih =>
    intro c hc
    cases hsi : shapes[pieceInstances.getD i 0]? with
    | none =>
      have hm1 : constraintRowsC pieceInstances shapes gw gh (i :: rest) c = (none, c) := by
        rw [constraintRowsC, hsi]
      have hm2 : constraintRows pieceInstances shapes gw gh (i :: rest) = none := by
        rw [constraintRows, hsi]
      rw [hm1, hm2]
      exact ⟨rfl, hc⟩
    | some s =>
      have hsmem : s ∈ shapes := mem_of_getElem?_some hsi
      obtain ⟨hpc1, hpc2⟩ := getShapePlacementsC_spec hu hc hsmem
      obtain ⟨ih1, ih2⟩ := ih (getShapePlacementsC c s gw gh).2 hpc2
      have hm1 : constraintRowsC pieceInstances shapes gw gh (i :: rest) c =
          ((constraintRowsC pieceInstances shapes gw gh rest
              (getShapePlacementsC c s gw gh).2).1.map
            (fun rows => (((getShapePlacementsC c s gw gh).1.map
              (fun cells => ([i], cells))) ++ rows)),
           (constraintRowsC pieceInstances shapes gw gh rest
              (getShapePlacementsC c s gw gh).2).2) := by
        rw [constraintRowsC, hsi]
      have hm2 : constraintRows pieceInstances shapes gw gh (i :: rest) =
          match constraintRows pieceInstances shapes gw gh rest with
          | none => none
          | some rows =>
            some (((getShapePlacements s gw gh).map (fun cells => ([i], cells))) ++ rows) := by
        rw [constraintRows, hsi]
      rw [hm1, hm2]
      refine ⟨?_, ih2⟩
      rw [ih1, hpc1]
      cases constraintRows pieceInstances shapes gw gh rest with
      | none => rfl
      | some rows => rfl

lemma canFitRegionC_spec {shapes : List Pentomino} (hu : idsConsistent shapes)
    (region : Region) (c : Caches) (hc : validCaches shapes c) :
    (canFitRegionC region shapes c).1 = canFitRegion region shapes ∧
    validCaches shapes (canFitRegionC region shapes c).2 := by
  obtain ⟨ht1, hv1⟩ := totalCellsAuxC_spec hu region.pieces
    (List.range region.pieces.length) c hc
  cases htcc : totalCellsAuxC region.pieces shapes (List.range region.pieces.length) c with
  | mk t1 c1 =>
    rw [htcc] at ht1 hv1
    cases t1 with
    | none =>
      have htn : totalCellsNeeded region.pieces shapes = none := by
        rw [totalCellsNeeded]
        exact ht1.symm
      have hmc : canFitRegionC region shapes c = (none, c1) := by
        rw [canFitRegionC, htcc]
      rw [hmc, canFitRegion_eq]
      simp only [htn]
      exact ⟨by trivial, hv1⟩
    | some t =>
      have htn : totalCellsNeeded region.pieces shapes = some t := by
        rw [totalCellsNeeded]
        exact ht1.symm
      have hmc : canFitRegionC region shapes c =
          (if t > region.width * region.height then ((some false : Option Bool), c1)
           else if (buildPieceInstances region.pieces).length = 0 then
             ((some true : Option Bool), c1)
           else
             match constraintRowsC (buildPieceInstances region.pieces) shapes
                 region.width region.height
                 (List.range (buildPieceInstances region.pieces).length) c1 with
             | (none, c2) => (none, c2)
             | (some rows, c2) =>
               (some (dlxSolve (buildPieceInstances region.pieces).length
                 (region.width * region.height) rows), c2)) := by
        rw [canFitRegionC, htcc]
      rw [hmc, canFitRegion_eq]
      simp only [htn]
      by_cases hgt : t > region.width * region.height
      · rw [if_pos hgt, if_pos hgt]
        exact ⟨rfl, hv1⟩
      · rw [if_neg hgt, if_neg hgt]
        by_cases hpi : (buildPieceInstances region.pieces).length = 0
        · rw [if_pos hpi, if_pos hpi]
          exact ⟨rfl, hv1⟩
        · rw [if_neg hpi, if_neg hpi]
          obtain ⟨hr1, hvr⟩ := constraintRowsC_spec hu (buildPieceInstances region.pieces)
            region.width region.height
            (List.range (buildPieceInstances region.pieces).length) c1 hv1
          cases hrcc : constraintRowsC (buildPieceInstances region.pieces) shapes
              region.width region.height
              (List.range (buildPieceInstances region.pieces).length) c1 with
          | mk r1 c2 =>
            rw [hrcc] at hr1 hvr
            cases r1 with
            | none =>
              have hbn : buildConstraints (buildPieceInstances region.pieces) shapes
                  region.width region.height = none := by
                rw [buildConstraints]
                exact hr1.symm
              simp only [hbn]
              exact ⟨by trivial, hvr⟩
            | some rows =>
              have hbs : buildConstraints (buildPieceInstances region.pieces) shapes
                  region.width region.height = some rows := by
                rw [buildConstraints]
                exact hr1.symm
              simp only [hbs]
              exact ⟨by trivial, hvr⟩

/-! ### Claim theorems -/

/-- C3: for every shape, `getVariants` returns between 1 and 8 grids, no two
of the returned grids are structurally equal (list equality covers both
dimensions and cell values), and the result is a deterministic pure function
of the shape's cell grid — it does not depend on the shape id. -/
theorem claim_C3 (shape : Pentomino) :
    1 ≤ (getVariants shape).length ∧ (getVariants shape).length ≤ 8 ∧
    (getVariants shape).Pairwise (fun a b => a ≠ b) ∧
    ∀ i : Nat, getVariants (Pentomino.mk i shape.height shape.width shape.matrix) =
      getVariants shape :=
  ⟨List.length_pos.mpr (getVariants_ne_nil shape), getVariants_length_le shape,
    getVariants_pairwise shape, fun i => getVariants_id_irrelevant i shape⟩

/-- C10: for a well-formed shape, every variant returned by `getVariants` has
exactly as many filled cells as the shape's matrix has 1-entries (the value
`getShapeCellCount` computes): rotation, horizontal flip and bounding-box
trimming all preserve the filled-cell count, which keeps the early-pruning
comparison consistent with the placements built from trimmed variants. -/
theorem claim_C10 (shape : Pentomino)
    (hlen : shape.matrix.length = shape.width * shape.height)
    (hw : 0 < shape.width) (hh : 0 < shape.height) :
    ∀ v ∈ getVariants shape, fillCount v = getShapeCellCount shape := by
  intro v hv
  rw [(getVariants_good hlen hw hh v hv).1, getShapeCellCount_eq_count]

/-- C4: for a well-formed shape and any grid size `W×H`, (i) every placement
returned by `getShapePlacements` consists only of row-major indices in
`[0, W*H)`; (ii) the placements are exactly those obtained by anchoring a
variant of bounding box `vh×vw` at a position `(py, px)` with `py + vh ≤ H`
and `px + vw ≤ W` and translating the variant's filled-cell offsets; and
(iii) an anchored variant contributes exactly as many indices as it has
filled cells. -/
theorem claim_C4 (shape : Pentomino) (W H : Nat)
    (hlen : shape.matrix.length = shape.width * shape.height)
    (hw : 0 < shape.width) (hh : 0 < shape.height) :
    (∀ p ∈ getShapePlacements shape W H, ∀ c ∈ p, c < W * H) ∧
    (∀ p, p ∈ getShapePlacements shape W H ↔
      ∃ v ∈ getVariants shape, ∃ py px, py + v.length ≤ H ∧
        px + (v.headD []).length ≤ W ∧ p = variantCells v py px W) ∧
    (∀ v ∈ getVariants shape, ∀ py px,
      (variantCells v py px W).length = fillCount v) := by
  refine ⟨?_, ?_, ?_⟩
  · intro p hp c hc
    exact placement_cells_lt hp hc
  · intro p
    rw [getShapePlacements, mem_placementsOfVariants]
  · intro v hv py px
    exact length_variantCells (getVariants_good hlen hw hh v hv).2.2 py px W

/-- C1: feasibility soundness. If `canFitRegion` returns `true`, there is a
selection of constraint rows — exactly one per required piece instance, each
row a genuine placement of that instance's shape — whose cell-index sets are
pairwise disjoint and lie in `[0, width*height)`. -/
theorem claim_C1 (region : Region) (shapes : List Pentomino)
    (h : canFitRegion region shapes = some true) :
    ∃ sel : List (List Nat × List Nat),
      (∀ i, i < (buildPieceInstances region.pieces).length →
        sel.countP (fun r => r.1.contains i) = 1) ∧
      (∀ r ∈ sel, ∃ i, i < (buildPieceInstances region.pieces).length ∧ r.1 = [i] ∧
        ∃ s, shapes[(buildPieceInstances region.pieces).getD i 0]? = some s ∧
          r.2 ∈ getShapePlacements s region.width region.height) ∧
      sel.Pairwise (fun r1 r2 => ∀ c ∈ r1.2, c ∉ r2.2) ∧
      (∀ r ∈ sel, ∀ c ∈ r.2, c < region.width * region.height) := by
  rw [canFitRegion_eq] at h
  cases htc : totalCellsNeeded region.pieces shapes with
  | none =>
    rw [htc] at h
    cases h
  | some t =>
    simp only [htc] at h
    by_cases hgt : t > region.width * region.height
    · rw [if_pos hgt] at h
      cases Option.some.inj h
    · rw [if_neg hgt] at h
      by_cases hpi : (buildPieceInstances region.pieces).length = 0
      · refine ⟨[], ?_, ?_, List.Pairwise.nil, ?_⟩
        · intro i hi
          omega
        · intro r hr
          cases hr
        · intro r hr
          cases hr
      · rw [if_neg hpi] at h
        cases hbc : buildConstraints (buildPieceInstances region.pieces) shapes
            region.width region.height with
        | none =>
          rw [hbc] at h
          cases h
        | some rows =>
          simp only [hbc] at h
          have hdlx : dlxSolve (buildPieceInstances region.pieces).length
              (region.width * region.height) rows = true := Option.some.inj h
          obtain ⟨sel, hsub, h1, h2⟩ := dlxSolve_eq_true_iff.mp hdlx
          have hselchar : ∀ r ∈ sel, ∃ i,
              i < (buildPieceInstances region.pieces).length ∧ r.1 = [i] ∧
              ∃ s, shapes[(buildPieceInstances region.pieces).getD i 0]? = some s ∧
                r.2 ∈ getShapePlacements s region.width region.height := by
            intro r hr
            obtain ⟨i, hi, h3, s, hs, h4⟩ :=
              constraintRows_mem _ shapes _ _ _ rows hbc r (List.Sublist.mem hr hsub)
            exact ⟨i, List.mem_range.mp hi, h3, s, hs, h4⟩
          have hbound : ∀ r ∈ sel, ∀ c ∈ r.2, c < region.width * region.height := by
            intro r hr c hc
            obtain ⟨i, _, _, s, _, hp⟩ := hselchar r hr
            exact placement_cells_lt hp hc
          exact ⟨sel, h1, hselchar, countP_le_one_pairwise hbound h2, hbound⟩

/-- Witness for C1: an exactly tiled 2×1 region with one domino. -/
theorem claim_C1_witness :
    canFitRegion (Region.mk 2 1 [1]) [⟨0, 3, 3, [1, 1, 0, 0, 0, 0, 0, 0, 0]⟩] = some true ∧
    ∃ sel : List (List Nat × List Nat),
      (∀ i, i < (buildPieceInstances (Region.mk 2 1 [1]).pieces).length →
        sel.countP (fun r => r.1.contains i) = 1) ∧
      (∀ r ∈ sel, ∃ i, i < (buildPieceInstances (Region.mk 2 1 [1]).pieces).length ∧
        r.1 = [i] ∧
        ∃ s, ([⟨0, 3, 3, [1, 1, 0, 0, 0, 0, 0, 0, 0]⟩] :
            List Pentomino)[(buildPieceInstances (Region.mk 2 1 [1]).pieces).getD i 0]?
          = some s ∧
          r.2 ∈ getShapePlacements s (Region.mk 2 1 [1]).width (Region.mk 2 1 [1]).height) ∧
      sel.Pairwise (fun r1 r2 => ∀ c ∈ r1.2, c ∉ r2.2) ∧
      (∀ r ∈ sel, ∀ c ∈ r.2, c < (Region.mk 2 1 [1]).width * (Region.mk 2 1 [1]).height) :=
  ⟨by decide, claim_C1 _ _ (by decide)⟩

/-- C5: a region that requires at least one instance of a shape whose
placement list for the region's grid size is empty is reported infeasible:
that instance's primary column has no candidate row. (The catalog-validity
precondition keeps the checker from faulting first.) -/
theorem claim_C5 (region : Region) (shapes : List Pentomino) (k : Nat) (s : Pentomino)
    (hkpos : region.pieces.getD k 0 > 0) (hklen : k < region.pieces.length)
    (hs : shapes[k]? = some s)
    (hempty : getShapePlacements s region.width region.height = [])
    (hvalid : ∀ i, i < region.pieces.length → region.pieces.getD i 0 > 0 →
      i < shapes.length) :
    canFitRegion region shapes = some false := by
  have hkmem : k ∈ buildPieceInstances region.pieces :=
    mem_buildPieceInstances.mpr ⟨hklen, hkpos⟩
  obtain ⟨⟨p, hp⟩, hpk⟩ := List.mem_iff_get.mp hkmem
  rw [canFitRegion_eq]
  have htc : (totalCellsNeeded region.pieces shapes).isSome := by
    apply totalCellsAux_isSome
    intro i hi hpos
    exact hvalid i (List.mem_range.mp hi) hpos
  obtain ⟨t, ht⟩ := Option.isSome_iff_exists.mp htc
  simp only [ht]
  by_cases hgt : t > region.width * region.height
  · rw [if_pos hgt]
  · rw [if_neg hgt]
    have hpilen : ¬((buildPieceInstances region.pieces).length = 0) := by
      intro h0
      rw [List.length_eq_zero] at h0
      rw [h0] at hkmem
      cases hkmem
    rw [if_neg hpilen]
    have hbc : (buildConstraints (buildPieceInstances region.pieces) shapes
        region.width region.height).isSome := by
      apply constraintRows_isSome
      intro j hj
      have hjlt : j < (buildPieceInstances region.pieces).length := List.mem_range.mp hj
      have hmem : (buildPieceInstances region.pieces).getD j 0 ∈
          buildPieceInstances region.pieces := by
        rw [List.getD_eq_getElem _ _ hjlt]
        exact List.getElem_mem hjlt
      obtain ⟨hjlt2, hjpos⟩ := mem_buildPieceInstances.mp hmem
      exact hvalid _ hjlt2 hjpos
    obtain ⟨rows, hrows⟩ := Option.isSome_iff_exists.mp hbc
    simp only [hrows]
    cases hdlx : dlxSolve (buildPieceInstances region.pieces).length
        (region.width * region.height) rows with
    | false => rfl
    | true =>
      exfalso
      obtain ⟨sel, hsub, h1, h2⟩ := dlxSolve_eq_true_iff.mp hdlx
      have hcnt := h1 p hp
      have hpos : 0 < sel.countP (fun r => r.1.contains p) := by omega
      obtain ⟨r, hr, hpr⟩ := List.countP_pos_iff.mp hpos
      obtain ⟨i, hi, h3, s', hs', h4⟩ :=
        constraintRows_mem _ shapes _ _ _ rows hrows r (List.Sublist.mem hr hsub)
      rw [h3] at hpr
      have hip : p = i := contains_singleton_iff.mp hpr
      have hgd : (buildPieceInstances region.pieces).getD p 0 = k := by
        rw [List.getD_eq_getElem _ _ hp]
        exact hpk
      rw [← hip, hgd, hs] at hs'
      cases Option.some.inj hs'
      rw [hempty] at h4
      cases h4

/-- Witness for C5: a straight tromino has no placement in a 2×2 grid. -/
theorem claim_C5_witness :
    ((Region.mk 2 2 [1]).pieces.getD 0 0 > 0) ∧
    (getShapePlacements (⟨0, 3, 3, [1, 1, 1, 0, 0, 0, 0, 0, 0]⟩ : Pentomino)
      (Region.mk 2 2 [1]).width (Region.mk 2 2 [1]).height = []) ∧
    canFitRegion (Region.mk 2 2 [1]) [⟨0, 3, 3, [1, 1, 1, 0, 0, 0, 0, 0, 0]⟩] = some false :=
  ⟨by decide, by decide,
    claim_C5 _ _ 0 (⟨0, 3, 3, [1, 1, 1, 0, 0, 0, 0, 0, 0]⟩ : Pentomino)
      (by decide) (by decide) (by decide) (by decide) (by decide)⟩

/-- C9: a 2×2 region requiring four instances of a single-cell shape is
feasible — four disjoint single-cell placements tile the grid exactly. -/
theorem claim_C9 (shape : Pentomino) (hw : shape.width = 3) (hh : shape.height = 3)
    (hlen : shape.matrix.length = 9) (hbin : ∀ c ∈ shape.matrix, c ≤ 1)
    (hcount : getShapeCellCount shape = 1) :
    canFitRegion (Region.mk 2 2 [4]) [shape] = some true := by
  have hmem9 : shape.matrix ∈ allBin 9 := mem_allBin 9 _ hbin hlen
  have hsingle : shape.matrix ∈ singleCellMatrices := by
    apply single_of_count_one _ hmem9
    rw [getShapeCellCount] at hcount
    exact hcount
  have hvar : getVariants shape = [[[1]]] := by
    have hcongr : getVariants (⟨0, 3, 3, shape.matrix⟩ : Pentomino) = getVariants shape :=
      getVariants_congr rfl hw.symm hh.symm
    rw [← hcongr]
    exact variants_of_single shape.matrix hsingle
  have hplac : getShapePlacements shape 2 2 = [[0], [1], [2], [3]] := by
    rw [getShapePlacements, hvar]
    rfl
  rw [canFitRegion_eq]
  have hpieces : (Region.mk 2 2 [4]).pieces = [4] := rfl
  have hwid : (Region.mk 2 2 [4]).width = 2 := rfl
  have hhei : (Region.mk 2 2 [4]).height = 2 := rfl
  have htot : totalCellsNeeded [4] [shape] = some 4 := by
    rw [totalCells_single shape 4 (by omega), hcount]
  simp only [hpieces, hwid, hhei, htot]
  rw [if_neg (by omega : ¬((4 : Nat) > 2 * 2))]
  have hpi : buildPieceInstances [4] = [0, 0, 0, 0] := rfl
  rw [if_neg (by decide : ¬((buildPieceInstances [4]).length = 0))]
  have hlen4 : ([0, 0, 0, 0] : List Nat).length = 4 := rfl
  have hbc := constraintRows_single shape 2 2 [0, 0, 0, 0] (List.range 4) (by decide)
  rw [hplac] at hbc
  rw [buildConstraints, hpi, hlen4]
  simp only [hbc]
  have hdlx : dlxSolve 4 (2 * 2) ((List.range 4).flatMap (fun i =>
      ([[0], [1], [2], [3]] : List (List Nat)).map (fun cells => ([i], cells)))) = true := by
    rw [dlxSolve, List.any_eq_true]
    refine ⟨[([0], [0]), ([1], [1]), ([2], [2]), ([3], [3])], ?_, ?_⟩
    · rw [List.mem_sublists]
      decide
    · decide
  rw [hdlx]

/-- Witness for C9 at a concrete single-cell shape. -/
theorem claim_C9_witness :
    getShapeCellCount (⟨0, 3, 3, [0, 0, 0, 0, 1, 0, 0, 0, 0]⟩ : Pentomino) = 1 ∧
    canFitRegion (Region.mk 2 2 [4]) [⟨0, 3, 3, [0, 0, 0, 0, 1, 0, 0, 0, 0]⟩] = some true :=
  ⟨by decide, claim_C9 _ (by decide) (by decide) (by decide) (by decide) (by decide)⟩

/-- C6 counterexample, refuting the claim as stated: the all-empty 3×3 shape
has zero filled cells and the single empty variant, yet a 2×2 region
requiring one instance of it is reported packable — `canFitRegion` returns
`some true`, because the empty variant yields placements occupying no cells,
which satisfy the instance's primary column without covering anything. The
claim's "any region requiring at least one instance of it cannot be packed"
is therefore false. -/
theorem claim_C6_counterexample :
    getShapeCellCount (⟨0, 3, 3, [0, 0, 0, 0, 0, 0, 0, 0, 0]⟩ : Pentomino) = 0 ∧
    getVariants (⟨0, 3, 3, [0, 0, 0, 0, 0, 0, 0, 0, 0]⟩ : Pentomino) = [[[]]] ∧
    canFitRegion (Region.mk 2 2 [1]) [⟨0, 3, 3, [0, 0, 0, 0, 0, 0, 0, 0, 0]⟩] = some true :=
  ⟨by decide, by decide, by decide⟩

/-- C6 (amended): for every well-formed shape with zero filled cells,
`getVariants` returns a single empty variant and the shape contributes no
cell-occupying placement (every placement's cell list is empty) — but,
contrary to the original claim, such a shape does not make regions
unpackable: a region of positive height requiring only instances of this
shape is reported feasible, each instance being satisfied by a zero-cell
placement. -/
theorem claim_C6_amended (shape : Pentomino) (hw : 0 < shape.width)
    (hh : 0 < shape.height) (hzero : getShapeCellCount shape = 0) :
    getVariants shape = [[[]]] ∧
    (∀ gw gh, ∀ p ∈ getShapePlacements shape gw gh, p = []) ∧
    (∀ W H n, 0 < H → 0 < n →
      canFitRegion (Region.mk W H [n]) [shape] = some true) := by
  have hvar : getVariants shape = [[[]]] :=
    getVariants_empty shape (no_one_of_cellCount_zero hzero)
  refine ⟨hvar, ?_, ?_⟩
  · intro gw gh
    exact placements_of_empty_variant hvar gw gh
  · intro W H n hH hn
    exact canFit_empty_shape shape hvar hzero W H n hH hn

/-- Witness for the amended C6 at the all-empty 3×3 shape. -/
theorem claim_C6_witness :
    (0 < (⟨0, 3, 3, List.replicate 9 0⟩ : Pentomino).width) ∧
    getShapeCellCount (⟨0, 3, 3, List.replicate 9 0⟩ : Pentomino) = 0 ∧
    (getVariants (⟨0, 3, 3, List.replicate 9 0⟩ : Pentomino) = [[[]]] ∧
      (∀ gw gh, ∀ p ∈ getShapePlacements (⟨0, 3, 3, List.replicate 9 0⟩ : Pentomino) gw gh,
        p = []) ∧
      (∀ W H n, 0 < H → 0 < n →
        canFitRegion (Region.mk W H [n]) [⟨0, 3, 3, List.replicate 9 0⟩] = some true)) :=
  ⟨by decide, by decide, claim_C6_amended _ (by decide) (by decide) (by decide)⟩

/-- C7: the three caches are pure memoizations. Provided each shape id in the
catalog identifies a unique cell grid, and starting from any validly
populated caches (the empty caches are trivially valid, and validity is
preserved by every call, so this covers caches populated by previously
processed regions): `getCachedVariants` returns exactly `getVariants`,
the cached placement and cell-count functions return the same values as
their uncached recomputations, and the boolean `canFitRegion` computes for a
region is the same whether or not the caches were already populated. -/
theorem claim_C7 (shapes : List Pentomino) (hu : idsConsistent shapes) (c : Caches)
    (hc : validCaches shapes c) :
    (∀ s ∈ shapes, (getCachedVariants c s).1 = getVariants s ∧
      validCaches shapes (getCachedVariants c s).2) ∧
    (∀ s ∈ shapes, ∀ gw gh,
      (getShapePlacementsC c s gw gh).1 = getShapePlacements s gw gh ∧
      validCaches shapes (getShapePlacementsC c s gw gh).2) ∧
    (∀ s ∈ shapes, (getShapeCellCountC c s).1 = getShapeCellCount s ∧
      validCaches shapes (getShapeCellCountC c s).2) ∧
    (∀ region, (canFitRegionC region shapes c).1 = canFitRegion region shapes ∧
      validCaches shapes (canFitRegionC region shapes c).2) := by
  refine ⟨?_, ?_, ?_, ?_⟩
  · intro s hs
    exact getCachedVariants_spec hu hc hs
  · intro s hs gw gh
    exact getShapePlacementsC_spec hu hc hs
  · intro s hs
    exact getShapeCellCountC_spec hu hc hs
  · intro region
    exact canFitRegionC_spec hu region c hc

/-- Witness for C7: a one-domino catalog with initially empty caches. -/
theorem claim_C7_witness :
    idsConsistent [⟨0, 3, 3, [1, 1, 0, 0, 0, 0, 0, 0, 0]⟩] ∧
    validCaches [⟨0, 3, 3, [1, 1, 0, 0, 0, 0, 0, 0, 0]⟩] (Caches.mk [] [] []) ∧
    ((∀ s ∈ ([⟨0, 3, 3, [1, 1, 0, 0, 0, 0, 0, 0, 0]⟩] : List Pentomino),
        (getCachedVariants (Caches.mk [] [] []) s).1 = getVariants s ∧
        validCaches [⟨0, 3, 3, [1, 1, 0, 0, 0, 0, 0, 0, 0]⟩]
          (getCachedVariants (Caches.mk [] [] []) s).2) ∧
      (∀ s ∈ ([⟨0, 3, 3, [1, 1, 0, 0, 0, 0, 0, 0, 0]⟩] : List Pentomino), ∀ gw gh,
        (getShapePlacementsC (Caches.mk [] [] []) s gw gh).1 = getShapePlacements s gw gh ∧
        validCaches [⟨0, 3, 3, [1, 1, 0, 0, 0, 0, 0, 0, 0]⟩]
          (getShapePlacementsC (Caches.mk [] [] []) s gw gh).2) ∧
      (∀ s ∈ ([⟨0, 3, 3, [1, 1, 0, 0, 0, 0, 0, 0, 0]⟩] : List Pentomino),
        (getShapeCellCountC (Caches.mk [] [] []) s).1 = getShapeCellCount s ∧
        validCaches [⟨0, 3, 3, [1, 1, 0, 0, 0, 0, 0, 0, 0]⟩]
          (getShapeCellCountC (Caches.mk [] [] []) s).2) ∧
      (∀ region, (canFitRegionC region [⟨0, 3, 3, [1, 1, 0, 0, 0, 0, 0, 0, 0]⟩]
          (Caches.mk [] [] [])).1 =
        canFitRegion region [⟨0, 3, 3, [1, 1, 0, 0, 0, 0, 0, 0, 0]⟩] ∧
        validCaches [⟨0, 3, 3, [1, 1, 0, 0, 0, 0, 0, 0, 0]⟩]
          (canFitRegionC region [⟨0, 3, 3, [1, 1, 0, 0, 0, 0, 0, 0, 0]⟩]
            (Caches.mk [] [] [])).2)) :=
  ⟨by
    intro s1 h1 s2 h2 _
    rw [List.mem_singleton] at h1 h2
    subst h1
    subst h2
    exact ⟨rfl, rfl, rfl⟩,
  ⟨fun p hp => absurd hp (List.not_mem_nil p),
    fun p hp => absurd hp (List.not_mem_nil p),
    fun p hp => absurd hp (List.not_mem_nil p)⟩,
  claim_C7 _ (by
    intro s1 h1 s2 h2 _
    rw [List.mem_singleton] at h1 h2
    subst h1
    subst h2
    exact ⟨rfl, rfl, rfl⟩) _
    ⟨fun p hp => absurd hp (List.not_mem_nil p),
      fun p hp => absurd hp (List.not_mem_nil p),
      fun p hp => absurd hp (List.not_mem_nil p)⟩⟩

/-- C8: under the precondition that every index carrying a positive required
count in `region.pieces` is a valid index into the shape catalog,
`canFitRegion` never reaches an out-of-range catalog access (modelled by the
`none` result) and always terminates with a boolean. -/
theorem claim_C8 (region : Region) (shapes : List Pentomino)
    (hvalid : ∀ i, i < region.pieces.length → region.pieces.getD i 0 > 0 →
      i < shapes.length) :
    (canFitRegion region shapes).isSome := by
  rw [canFitRegion_eq]
  have htc : (totalCellsNeeded region.pieces shapes).isSome := by
    apply totalCellsAux_isSome
    intro i hi hpos
    exact hvalid i (List.mem_range.mp hi) hpos
  obtain ⟨t, ht⟩ := Option.isSome_iff_exists.mp htc
  simp only [ht]
  by_cases hgt : t > region.width * region.height
  · rw [if_pos hgt]
    rfl
  · rw [if_neg hgt]
    by_cases hpi : (buildPieceInstances region.pieces).length = 0
    · rw [if_pos hpi]
      rfl
    · rw [if_neg hpi]
      have hbc : (buildConstraints (buildPieceInstances region.pieces) shapes
          region.width region.height).isSome := by
        apply constraintRows_isSome
        intro k hk
        have hklt : k < (buildPieceInstances region.pieces).length := List.mem_range.mp hk
        have hmem : (buildPieceInstances region.pieces).getD k 0 ∈
            buildPieceInstances region.pieces := by
          rw [List.getD_eq_getElem _ _ hklt]
          exact List.getElem_mem hklt
        obtain ⟨hjlt, hjpos⟩ := mem_buildPieceInstances.mp hmem
        exact hvalid _ hjlt hjpos
      obtain ⟨rows, hrows⟩ := Option.isSome_iff_exists.mp hbc
      simp only [hrows]
      rfl

/-- Witness for C8 at a concrete region and catalog. -/
theorem claim_C8_witness :
    (∀ i, i < (Region.mk 2 2 [1]).pieces.length → (Region.mk 2 2 [1]).pieces.getD i 0 > 0 →
      i < ([⟨0, 3, 3, [1, 1, 0, 0, 0, 0, 0, 0, 0]⟩] : List Pentomino).length) ∧
    (canFitRegion (Region.mk 2 2 [1]) [⟨0, 3, 3, [1, 1, 0, 0, 0, 0, 0, 0, 0]⟩]).isSome :=
  ⟨by decide, claim_C8 _ _ (by decide)⟩

/-- C2: whenever the total cell demand of a region (as computed by the
source's pruning sum) exceeds `width*height`, `canFitRegion` returns `false`,
and it does so before any placement enumeration takes place: the instrumented
checker reports zero invocations of `getShapePlacements`. -/
theorem claim_C2 (region : Region) (shapes : List Pentomino) (t : Nat)
    (ht : totalCellsNeeded region.pieces shapes = some t)
    (hgt : t > region.width * region.height) :
    canFitRegion region shapes = some false ∧
    canFitRegionInstr region shapes = (some false, 0) := by
  constructor
  · rw [canFitRegion_eq]
    simp only [ht]
    rw [if_pos hgt]
  · rw [canFitRegionInstr_eq]
    simp only [ht]
    rw [if_pos hgt]

/-- Witness for C2: a 2-cell domino cannot be demanded of a 1×1 region. -/
theorem claim_C2_witness :
    totalCellsNeeded (Region.mk 1 1 [1]).pieces [⟨0, 3, 3, [1, 1, 0, 0, 0, 0, 0, 0, 0]⟩]
      = some 2 ∧
    2 > (Region.mk 1 1 [1]).width * (Region.mk 1 1 [1]).height ∧
    (canFitRegion (Region.mk 1 1 [1]) [⟨0, 3, 3, [1, 1, 0, 0, 0, 0, 0, 0, 0]⟩] = some false ∧
      canFitRegionInstr (Region.mk 1 1 [1]) [⟨0, 3, 3, [1, 1, 0, 0, 0, 0, 0, 0, 0]⟩]
        = (some false, 0)) :=
  ⟨by decide, by decide, claim_C2 _ _ 2 (by decide) (by decide)⟩

/-- Witness for C4 at a concrete domino shape on a 2×2 grid. -/
theorem claim_C4_witness :
    ((⟨0, 3, 3, [1, 1, 0, 0, 0, 0, 0, 0, 0]⟩ : Pentomino).matrix.length =
      (⟨0, 3, 3, [1, 1, 0, 0, 0, 0, 0, 0, 0]⟩ : Pentomino).width *
        (⟨0, 3, 3, [1, 1, 0, 0, 0, 0, 0, 0, 0]⟩ : Pentomino).height) ∧
    ((∀ p ∈ getShapePlacements (⟨0, 3, 3, [1, 1, 0, 0, 0, 0, 0, 0, 0]⟩ : Pentomino) 2 2,
        ∀ c ∈ p, c < 2 * 2) ∧
      (∀ p, p ∈ getShapePlacements (⟨0, 3, 3, [1, 1, 0, 0, 0, 0, 0, 0, 0]⟩ : Pentomino) 2 2 ↔
        ∃ v ∈ getVariants (⟨0, 3, 3, [1, 1, 0, 0, 0, 0, 0, 0, 0]⟩ : Pentomino), ∃ py px,
          py + v.length ≤ 2 ∧ px + (v.headD []).length ≤ 2 ∧ p = variantCells v py px 2) ∧
      (∀ v ∈ getVariants (⟨0, 3, 3, [1, 1, 0, 0, 0, 0, 0, 0, 0]⟩ : Pentomino), ∀ py px,
        (variantCells v py px 2).length = fillCount v)) :=
  ⟨by decide, claim_C4 _ 2 2 (by decide) (by decide) (by decide)⟩

/-- Witness for C10 at a concrete 3-cell shape. -/
theorem claim_C10_witness :
    ((⟨0, 3, 3, [1, 1, 0, 0, 1, 0, 0, 0, 0]⟩ : Pentomino).matrix.length =
      (⟨0, 3, 3, [1, 1, 0, 0, 1, 0, 0, 0, 0]⟩ : Pentomino).width *
        (⟨0, 3, 3, [1, 1, 0, 0, 1, 0, 0, 0, 0]⟩ : Pentomino).height) ∧
    (∀ v ∈ getVariants (⟨0, 3, 3, [1, 1, 0, 0, 1, 0, 0, 0, 0]⟩ : Pentomino),
      fillCount v = getShapeCellCount (⟨0, 3, 3, [1, 1, 0, 0, 1, 0, 0, 0, 0]⟩ : Pentomino)) :=
  ⟨by decide, claim_C10 _ (by decide) (by decide) (by decide)⟩

end Day6
